import Mathlib

/-!
# LcdPngGenerator: a shallow embedding of `CUtility` and of the loop of `main`

Modelling conventions.

* A `std::string` holding text is a `List Char`, one `Char` for each C++ `char`; a
  `std::string` used as a binary buffer (the output of `convertStringToDecDisplay`,
  the row buffer `pngImageData`) is a `List Nat` of byte values `0 .. 255`.
* `int` is the 32 bit two's complement integer and `unsigned int` the 32 bit
  unsigned integer; the conversions between them are written out (`toUnsigned`,
  `toInt`).
* A C++ function with a reference out-parameter returns the pair of its return
  value and the final value of the out-parameter.
* Where the C++ has undefined behaviour (integer division by zero, a floating
  value converted to an integer type that cannot hold it, a read outside a
  buffer) the model returns `none`.
-/

namespace LcdPng

/-! ## The C++ library functions the program uses -/

/-- The value `INT_MAX` of a 32 bit `int`. -/
def INT_MAX : Int := 2147483647

/-- The value `INT_MIN` of a 32 bit `int`. -/
def INT_MIN : Int := -2147483648

/-- The number of values of a 32 bit `unsigned int`. -/
def UINT_RANGE : Nat := 4294967296

/-- Conversion of an `int` to `unsigned int`: reduction modulo `2^32`. -/
def toUnsigned (i : Int) : Nat := (i % (UINT_RANGE : Int)).toNat

/-- Conversion of an `unsigned int` to `int`: the two's complement reading. -/
def toInt (u : Nat) : Int :=
  if u % UINT_RANGE < 2147483648 then ((u % UINT_RANGE : Nat) : Int)
  else ((u % UINT_RANGE : Nat) : Int) - (UINT_RANGE : Int)

/-- The C function `isdigit` in the "C" locale: true exactly on `'0' .. '9'`. -/
def isdigit (c : Char) : Bool := decide ('0'.toNat ≤ c.toNat) && decide (c.toNat ≤ '9'.toNat)

/-- The C function `isspace` in the "C" locale. -/
def isspace (c : Char) : Bool :=
  c == ' ' || c == '\t' || c == '\n' || c == '\x0b' || c == '\x0c' || c == '\r'

/-- The numeric value of a decimal digit character. -/
def digitValue (c : Char) : Nat := c.toNat - '0'.toNat

/-- The accumulation loop of `strtol` in base 10 over a run of digit characters. -/
def accumulateDigits (ds : List Char) : Nat :=
  ds.foldl (fun acc c => 10 * acc + digitValue c) 0

/-- The two exceptions `std::stoi` throws. -/
inductive StoiError where
  | invalid_argument
  | out_of_range
  deriving DecidableEq, Repr

/-- The function `std::stoi(str)` (base 10): leading white space is skipped, an optional
sign is read, then the longest run of decimal digits. With no digit it throws
`std::invalid_argument`; when the value does not fit an `int` it throws
`std::out_of_range`. -/
def stoi (str : List Char) : Except StoiError Int :=
  let s := str.dropWhile isspace
  let signed : Bool × List Char :=
    match s with
    | '-' :: t => (true, t)
    | '+' :: t => (false, t)
    | _ => (false, s)
  let ds := signed.2.takeWhile isdigit
  if ds.isEmpty then Except.error StoiError.invalid_argument
  else
    let n : Int := (accumulateDigits ds : Nat)
    let v : Int := if signed.1 then -n else n
    if v < INT_MIN ∨ INT_MAX < v then Except.error StoiError.out_of_range
    else Except.ok v

/-- The function `std::to_string(int)`: the decimal rendering, with a leading `'-'` for a
negative value. -/
def to_string (i : Int) : List Char :=
  if i < 0 then '-' :: Nat.toDigits 10 i.natAbs else Nat.toDigits 10 i.toNat

/-- The value `static_cast<unsigned int>(pow(10, outLen))`: `pow` is exact on these
arguments, and the conversion is undefined once `10^outLen` exceeds the range of
`unsigned int`. -/
def powTenUnsigned (outLen : Nat) : Option Nat :=
  if 10 ^ outLen < UINT_RANGE then some (10 ^ outLen) else none

/-- The member `std::string::insert(0, count, ch)`. -/
def insertFront (s : List Char) (count : Nat) (ch : Char) : List Char :=
  List.replicate count ch ++ s

namespace CUtility

/-- The function `CUtility::isFullDigitString` of `CUtility.hpp`. -/
def isFullDigitString : List Char → Bool
  | [] => true
  | c :: rest => if !isdigit c then false else isFullDigitString rest

/-- The function `CUtility::getChecksumCode` of `CUtility.cpp`. The result is the returned
`int` and the final value of `outputStr`; `none` stands for undefined behaviour
(`% mode` with `mode = 0`, or `pow(10, outLen)` outside the range of `unsigned int`). -/
def getChecksumCode (inputStr outputStr : List Char) (mode outLen : Nat) :
    Option (Int × List Char) :=
  if !isFullDigitString inputStr then
    some (0, outputStr)
  else
    let reversedStr := inputStr.reverse
    match stoi reversedStr with
    | Except.error _ => some (0, outputStr)
    | Except.ok parsed =>
      if mode = 0 then none
      else
        let checkSum : Int := toInt (toUnsigned parsed % mode)
        match powTenUnsigned outLen with
        | none => none
        | some p =>
          let checkSum : Int := toInt (toUnsigned checkSum % p)
          let outputStr := to_string checkSum
          let outputStr :=
            if outputStr.length < outLen then
              insertFront outputStr (outLen - outputStr.length) '0'
            else outputStr
          some (1, outputStr)

/-- The table `C_Map_DecToDisplay` of `CUtility.cpp`, a `std::map<char, char>`; each pattern
is given as the byte value of the stored `char`. -/
def C_Map_DecToDisplay : List (Char × Nat) :=
  [ ('0', 0b01110111),
    ('1', 0b01000010),
    ('2', 0b10110110),
    ('3', 0b11010110),
    ('4', 0b11000011),
    ('5', 0b11010101),
    ('6', 0b11110101),
    ('7', 0b01000110),
    ('8', 0b11110111),
    ('9', 0b11010111) ]

/-- The range-for loop of `convertStringToDecDisplay` over the characters still to convert:
`find` on the table, then append the pattern, or return 0 on the first key that is absent. -/
def convertLoop : List Char → List Nat → Int × List Nat
  | [], outputStr => (1, outputStr)
  | digit :: rest, outputStr =>
    match C_Map_DecToDisplay.lookup digit with
    | some pattern => convertLoop rest (outputStr ++ [pattern])
    | none => (0, outputStr)

/-- The function `CUtility::convertStringToDecDisplay` of `CUtility.cpp`: `outputStr` is cleared,
then the loop runs. The result is the returned `int` and the final `outputStr`. -/
def convertStringToDecDisplay (inputStr : List Char) (_outputStr : List Nat) : Int × List Nat :=
  convertLoop inputStr []

/-- The function `CUtility::isValidId` of `CUtility.cpp`. -/
def isValidId (idStr : List Char) (idLength : Nat) : Bool :=
  if idLength != idStr.length then false
  else if !isFullDigitString idStr then false
  else true

/-- The number of bytes libpng's `png_write_row` reads from the row pointer of an image of
bit depth 1 and one channel: `PNG_ROWBYTES(1, width)`. -/
def rowBytes (imgWidth : Nat) : Nat := (imgWidth + 7) / 8

/-- The bytes `png_write_row` reads when the row pointer stands `rowData` bytes after
`data.data()`; `none` when one of them lies outside the buffer. -/
def png_write_row (data : List Nat) (rowData imgWidth : Nat) : Option (List Nat) :=
  if rowData + rowBytes imgWidth ≤ data.length then
    some ((data.drop rowData).take (rowBytes imgWidth))
  else none

/-- The row loop of `CUtility::createPngImage1BitDepth`,
`for (y = 0; y < imgHeight; y++) { png_write_row(.., rowData); rowData += imgWidth; }`,
with `rowsLeft` iterations to go and the row pointer `rowData` bytes after `data.data()`.
The result is the list of rows handed to libpng. -/
def writeRows (data : List Nat) (imgWidth : Nat) : Nat → Nat → Option (List (List Nat))
  | 0, _ => some []
  | rowsLeft + 1, rowData =>
    match png_write_row data rowData imgWidth with
    | none => none
    | some row =>
      match writeRows data imgWidth rowsLeft (rowData + imgWidth) with
      | none => none
      | some rows => some (row :: rows)

end CUtility

/-! ## The constants and the loop of `main` (`LcdPngGenerator.cpp`) -/

/-- The constant `I_ASSET_ID_LEN`. -/
def I_ASSET_ID_LEN : Nat := 4
/-- The constant `I_CHECKSUM_MOD`. -/
def I_CHECKSUM_MOD : Nat := 97
/-- The constant `I_CHECKSUM_LEN`. -/
def I_CHECKSUM_LEN : Nat := 2
/-- The constant `I_DISPLAY_LEN`. -/
def I_DISPLAY_LEN : Nat := 6
/-- The constant `I_PNG_DATA_LEN`. -/
def I_PNG_DATA_LEN : Nat := 32
/-- The constant `I_PNG_DATA_OFFSET`. -/
def I_PNG_DATA_OFFSET : Nat := 1
/-- The constant `I_PNG_WIDTH`. -/
def I_PNG_WIDTH : Nat := 256
/-- The constant `I_PNG_HEIGHT`. -/
def I_PNG_HEIGHT : Nat := 1

/-- The member `std::string::assign(count, ch)`. -/
def assign (count : Nat) (ch : Nat) : List Nat := List.replicate count ch

/-- The member `std::string::replace(pos, len, str)`: the `min(len, size - pos)` bytes from
`pos` on are replaced by `str`; with `pos > size` it throws `std::out_of_range` (`none`). -/
def replace (s : List Nat) (pos len : Nat) (str : List Nat) : Option (List Nat) :=
  if s.length < pos then none
  else some (s.take pos ++ str ++ s.drop (pos + min len (s.length - pos)))

/-- The local variables of `main` that live across iterations of its loop. -/
structure MainState where
  idSet : List (List Char)
  checkSumStr : List Char
  finalDigitStr : List Char
  decDisplayStr : List Nat
  pngNameStr : List Char
  pngImageData : List Nat
  deriving DecidableEq, Repr

/-- The arguments of one call of `CUtility::createPngImage1BitDepth`. -/
structure PngCall where
  fileName : List Char
  imgWidth : Nat
  imgHeight : Nat
  data : List Nat
  deriving DecidableEq, Repr

/-- The state of `main` on entry to its loop. -/
def initialState : MainState :=
  { idSet := [], checkSumStr := [], finalDigitStr := [], decDisplayStr := [],
    pngNameStr := [], pngImageData := List.replicate I_PNG_DATA_LEN 0 }

/-- One iteration of the `while (getline(..))` loop of `main` on the line `idLineStr`: the
state after it and the call of the image writer it makes, if any. The writer only reads
the buffer and its result only selects a diagnostic, so that result is not an input. `none`
stands for an iteration that does not end normally (undefined behaviour, or an exception
nobody catches). -/
def loopBody (st : MainState) (idLineStr : List Char) : Option (MainState × Option PngCall) :=
  if idLineStr ∈ st.idSet then some (st, none)
  else
    let st := { st with idSet := idLineStr :: st.idSet }
    if !CUtility.isValidId idLineStr I_ASSET_ID_LEN then some (st, none)
    else
      match CUtility.getChecksumCode idLineStr st.checkSumStr I_CHECKSUM_MOD I_CHECKSUM_LEN with
      | none => none
      | some (rc, checkSumStr) =>
        let st := { st with checkSumStr := checkSumStr }
        if rc = 0 then some (st, none)
        else
          let st := { st with finalDigitStr := st.checkSumStr ++ idLineStr }
          let converted := CUtility.convertStringToDecDisplay st.finalDigitStr st.decDisplayStr
          let st := { st with decDisplayStr := converted.2 }
          if converted.1 = 0 then some (st, none)
          else
            let st := { st with pngImageData := assign st.pngImageData.length 0 }
            match replace st.pngImageData I_PNG_DATA_OFFSET st.decDisplayStr.length
                st.decDisplayStr with
            | none => none
            | some buffer =>
              let st := { st with pngImageData := buffer }
              let st := { st with pngNameStr := idLineStr ++ ".png".toList }
              some (st, some { fileName := st.pngNameStr, imgWidth := I_PNG_WIDTH,
                               imgHeight := I_PNG_HEIGHT, data := st.pngImageData })

/-- The loop of `main` over the lines of the input file, from the state `st`: the final
state and the calls of the image writer, in order. -/
def mainLoop : List (List Char) → MainState → Option (MainState × List PngCall)
  | [], st => some (st, [])
  | idLineStr :: rest, st =>
    match loopBody st idLineStr with
    | none => none
    | some (st1, call) =>
      match mainLoop rest st1 with
      | none => none
      | some (st2, calls) => some (st2, call.toList ++ calls)

/-! ## The whole of `createPngImage1BitDepth` and the header test of `UnitTest.cpp` -/

namespace CUtility

/-- The constant `PNG_COLOR_TYPE_GRAY` of `png.h`. -/
def PNG_COLOR_TYPE_GRAY : Nat := 0
/-- The constant `PNG_INTERLACE_NONE` of `png.h`. -/
def PNG_INTERLACE_NONE : Nat := 0
/-- The constant `PNG_COMPRESSION_TYPE_DEFAULT` of `png.h`. -/
def PNG_COMPRESSION_TYPE_DEFAULT : Nat := 0
/-- The constant `PNG_FILTER_TYPE_DEFAULT` of `png.h`. -/
def PNG_FILTER_TYPE_DEFAULT : Nat := 0
/-- The constant `PNG_UINT_31_MAX` of `png.h`, the largest width or height of a PNG image. -/
def PNG_UINT_31_MAX : Nat := 2147483647

/-- The arguments of `png_set_IHDR` after the two structure pointers; `width` and `height`
are `png_uint_32` values. -/
structure ImageHeader where
  width : Nat
  height : Nat
  bit_depth : Nat
  color_type : Nat
  interlace_type : Nat
  compression_type : Nat
  filter_type : Nat
  deriving DecidableEq, Repr

/-- The test of `png_set_IHDR` on the two dimensions: libpng calls `png_error` on a
dimension that is zero or above `PNG_UINT_31_MAX`. -/
def png_check_IHDR (ihdr : ImageHeader) : Bool :=
  decide (1 ≤ ihdr.width) && decide (ihdr.width ≤ PNG_UINT_31_MAX) &&
  decide (1 ≤ ihdr.height) && decide (ihdr.height ≤ PNG_UINT_31_MAX)

/-- The calls of libpng in `createPngImage1BitDepth` that can end in `png_error`, which jumps
back to the `setjmp` of the function. -/
inductive PngCallSite where
  | set_IHDR
  | write_info
  | write_row (y : Nat)
  | write_end
  deriving DecidableEq, Repr

/-- What `createPngImage1BitDepth` does not decide itself: whether `fopen` opens the file,
whether libpng can allocate its two structures, and which calls of libpng end in
`png_error` for a reason outside the arguments modelled here (a failed write, a limit of
the library). -/
structure PngEnv where
  fopenOk : Bool
  writeStructOk : Bool
  infoStructOk : Bool
  fault : PngCallSite → Bool

/-- What a call of `createPngImage1BitDepth` leaves behind: the value returned, whether the
`FILE*` it opened is still open when it returns, the header `png_write_info` wrote, and the
rows `png_write_row` stored, in order, as libpng encodes them. -/
structure PngOutcome where
  returned : Bool
  fileOpen : Bool
  header : Option ImageHeader
  rows : List (List Nat)
  deriving DecidableEq, Repr

/-- The write transformation `png_set_invert_mono` switches on: `png_do_invert` replaces
each byte of a grey row by its complement `~b`. -/
def png_do_invert (row : List Nat) : List Nat := row.map (fun b => b ^^^ 0xFF)

/-- The row loop of `createPngImage1BitDepth` inside the whole function: as `writeRows`, with
`y` the loop counter, each row stored after `png_do_invert`, and the loop left through
`setjmp` (first component `false`) at a call of `png_write_row` that ends in `png_error`. -/
def rowLoop (env : PngEnv) (data : List Nat) (imgWidth : Nat) :
    Nat → Nat → Nat → Option (Bool × List (List Nat))
  | 0, _, _ => some (true, [])
  | rowsLeft + 1, y, rowData =>
    match png_write_row data rowData imgWidth with
    | none => none
    | some row =>
      if env.fault (PngCallSite.write_row y) then some (false, [])
      else
        match rowLoop env data imgWidth rowsLeft (y + 1) (rowData + imgWidth) with
        | none => none
        | some (completed, rows) => some (completed, png_do_invert row :: rows)

/-- The function `CUtility::createPngImage1BitDepth` of `CUtility.cpp`. The `int` arguments
`imgWidth` and `imgHeight` reach `png_set_IHDR` converted to `png_uint_32`. Every
`return false` of the source is a `fileOpen := true` outcome but the first: only the last
statements of the function call `fclose`. `none` stands for a read outside `data`. -/
def createPngImage1BitDepth (env : PngEnv) (_fileName : List Char) (imgWidth imgHeight : Int)
    (data : List Nat) : Option PngOutcome :=
  if !env.fopenOk then
    some { returned := false, fileOpen := false, header := none, rows := [] }
  else if !env.writeStructOk then
    some { returned := false, fileOpen := true, header := none, rows := [] }
  else if !env.infoStructOk then
    some { returned := false, fileOpen := true, header := none, rows := [] }
  else
    let ihdr : ImageHeader :=
      { width := toUnsigned imgWidth, height := toUnsigned imgHeight, bit_depth := 1,
        color_type := PNG_COLOR_TYPE_GRAY, interlace_type := PNG_INTERLACE_NONE,
        compression_type := PNG_COMPRESSION_TYPE_DEFAULT,
        filter_type := PNG_FILTER_TYPE_DEFAULT }
    if !png_check_IHDR ihdr || env.fault PngCallSite.set_IHDR then
      some { returned := false, fileOpen := true, header := none, rows := [] }
    else if env.fault PngCallSite.write_info then
      some { returned := false, fileOpen := true, header := none, rows := [] }
    else
      match rowLoop env data imgWidth.toNat imgHeight.toNat 0 0 with
      | none => none
      | some (false, rows) =>
        some { returned := false, fileOpen := true, header := some ihdr, rows := rows }
      | some (true, rows) =>
        if env.fault PngCallSite.write_end then
          some { returned := false, fileOpen := true, header := some ihdr, rows := rows }
        else
          some { returned := true, fileOpen := false, header := some ihdr, rows := rows }

/-- An environment in which the file opens, libpng allocates its structures and no call of
libpng ends in `png_error`. -/
def quietEnv : PngEnv :=
  { fopenOk := true, writeStructOk := true, infoStructOk := true, fault := fun _ => false }

end CUtility

/-- The constant `TEST_IMAGE_PIXELS` of `UnitTest.cpp`. -/
def TEST_IMAGE_PIXELS : Nat := 256
/-- The constant `TEST_IMAGE_HEIGHT` of `UnitTest.cpp`. -/
def TEST_IMAGE_HEIGHT : Nat := 1
/-- The constant `TEST_IMAGE_BIT_DEPTH` of `UnitTest.cpp`. -/
def TEST_IMAGE_BIT_DEPTH : Nat := 1
/-- The constant `TEST_IMAGE_COLOR_TYPE` of `UnitTest.cpp`. -/
def TEST_IMAGE_COLOR_TYPE : Nat := CUtility.PNG_COLOR_TYPE_GRAY

/-- The test `readAndCheckPngFile` of `UnitTest.cpp` makes on the header it read: it gives
up when the width, the height, the colour type or the bit depth is not the expected one. -/
def headerAccepted (hdr : CUtility.ImageHeader) : Bool :=
  if hdr.width != TEST_IMAGE_PIXELS || hdr.height != TEST_IMAGE_HEIGHT
      || hdr.color_type != TEST_IMAGE_COLOR_TYPE || hdr.bit_depth != TEST_IMAGE_BIT_DEPTH then
    false
  else true

/-! ## Vocabulary of the properties -/

/-- The base-10 number a digit string denotes, most significant digit first. -/
def decimalValue (t : List Char) : Nat := Nat.ofDigits 10 (t.reverse.map digitValue)

/-- The glyph table as the specification lists it, indexed by digit value. -/
def glyphTable : List Nat := [0x77, 0x42, 0xB6, 0xD6, 0xC3, 0xD5, 0xF5, 0x46, 0xF7, 0xD7]

/-- The glyph pattern the specification gives to a digit character. -/
def glyphOf (c : Char) : Nat := glyphTable.getD (digitValue c) 0

/-! # Theorems -/

open CUtility

/-! ## Auxiliary facts about the library functions -/

theorem isdigit_iff (c : Char) : isdigit c = true ↔ 48 ≤ c.toNat ∧ c.toNat ≤ 57 := by
  have h0 : '0'.toNat = 48 := by decide
  have h9 : '9'.toNat = 57 := by decide
  simp [isdigit, h0, h9]

theorem isspace_of_isdigit (c : Char) (h : isdigit c = true) : isspace c = false := by
  rw [isdigit_iff] at h
  by_contra hs
  simp only [isspace, Bool.or_eq_true, beq_iff_eq, Bool.not_eq_false] at hs
  rcases hs with ((((hs | hs) | hs) | hs) | hs) | hs <;> subst hs <;> revert h <;> decide

theorem digitChar_isdigit (d : Nat) (h : d < 10) : isdigit (Nat.digitChar d) = true := by
  interval_cases d <;> decide

theorem digitValue_digitChar (d : Nat) (h : d < 10) : digitValue (Nat.digitChar d) = d := by
  interval_cases d <;> decide

theorem digitValue_lt (c : Char) (h : isdigit c = true) : digitValue c < 10 := by
  rw [isdigit_iff] at h
  have h0 : '0'.toNat = 48 := by decide
  simp only [digitValue, h0]; omega

theorem accumulateDigits_append (ds : List Char) (c : Char) :
    accumulateDigits (ds ++ [c]) = 10 * accumulateDigits ds + digitValue c := by
  simp [accumulateDigits, List.foldl_append]

theorem accumulateDigits_eq (ds : List Char) : accumulateDigits ds = decimalValue ds := by
  induction ds using List.reverseRecOn with
  | nil => simp [accumulateDigits, decimalValue]
  | append_singleton l c ih =>
    rw [accumulateDigits_append, ih]
    simp [decimalValue, Nat.ofDigits_cons]
    ring

theorem toDigitsCore_eq (fuel : Nat) : ∀ (n : Nat) (ds : List Char), n < fuel →
    Nat.toDigitsCore 10 fuel n ds =
      (if n = 0 then ['0'] else (Nat.digits 10 n).reverse.map Nat.digitChar) ++ ds := by
  induction fuel with
  | zero => intro n ds h; omega
  | succ fuel ih =>
    intro n ds h
    rw [Nat.toDigitsCore]
    by_cases h10 : n / 10 = 0
    · have hlt : n < 10 := by omega
      simp only [h10, if_true]
      by_cases hn : n = 0
      · subst hn; simp; rfl
      · simp only [hn, if_false]
        rw [Nat.digits_of_lt 10 n hn hlt, Nat.mod_eq_of_lt hlt]
        simp
    · have hn : n ≠ 0 := by omega
      simp only [h10, if_false, hn]
      rw [ih (n / 10) _ (by omega)]
      simp only [h10, if_false]
      rw [Nat.digits_def' (by norm_num) (Nat.pos_of_ne_zero hn)]
      simp

theorem toDigits_eq (n : Nat) :
    Nat.toDigits 10 n = if n = 0 then ['0'] else (Nat.digits 10 n).reverse.map Nat.digitChar := by
  rw [Nat.toDigits, toDigitsCore_eq (n + 1) n [] (by omega)]
  simp

theorem isFullDigitString_iff (s : List Char) :
    isFullDigitString s = true ↔ ∀ c ∈ s, isdigit c = true := by
  induction s with
  | nil => simp [isFullDigitString]
  | cons c rest ih =>
    rw [isFullDigitString]
    by_cases hc : isdigit c = true
    · simp [hc, ih]
    · simp [hc]

theorem stoi_nil : stoi [] = Except.error StoiError.invalid_argument := by rfl

theorem stoi_digits (s : List Char) (hne : s ≠ []) (hd : ∀ c ∈ s, isdigit c = true) :
    stoi s = if INT_MAX < (decimalValue s : Int) then Except.error StoiError.out_of_range
             else Except.ok (decimalValue s : Int) := by
  obtain ⟨c, t, rfl⟩ := List.exists_cons_of_ne_nil hne
  have hc : isdigit c = true := hd c (by simp)
  have hsp : isspace c = false := isspace_of_isdigit c hc
  have hminus : c ≠ '-' := by rintro rfl; revert hc; decide
  have hplus : c ≠ '+' := by rintro rfl; revert hc; decide
  have htake : List.takeWhile isdigit (c :: t) = c :: t := by
    rw [List.takeWhile_eq_self_iff]; exact hd
  have hdrop : List.dropWhile isspace (c :: t) = c :: t := by
    simp [List.dropWhile_cons, hsp]
  unfold stoi
  simp only [hdrop]
  have hsig : (match c :: t with
      | '-' :: t => (true, t)
      | '+' :: t => (false, t)
      | _ => (false, c :: t)) = ((false, c :: t) : Bool × List Char) := by
    split
    · rename_i h; simp at h; exact absurd h.1 hminus
    · rename_i h; simp at h; exact absurd h.1 hplus
    · rfl
  rw [hsig]
  simp only [htake, accumulateDigits_eq, List.isEmpty_cons, Bool.false_eq_true, if_false]
  have : ¬ ((decimalValue (c :: t) : Int) < INT_MIN) := by
    unfold INT_MIN; omega
  simp [this]

theorem toUnsigned_natCast (n : Nat) (h : n < UINT_RANGE) : toUnsigned (n : Int) = n := by
  unfold toUnsigned UINT_RANGE at *
  omega

theorem toInt_small (n : Nat) (h : n < 2147483648) : toInt n = (n : Int) := by
  unfold toInt UINT_RANGE
  have h1 : n % 4294967296 = n := Nat.mod_eq_of_lt (by omega)
  simp [h1, h]

theorem to_string_natCast (n : Nat) : to_string (n : Int) = Nat.toDigits 10 n := by
  unfold to_string
  simp

theorem toDigits_isdigit (n : Nat) : ∀ c ∈ Nat.toDigits 10 n, isdigit c = true := by
  intro c hc
  rw [toDigits_eq] at hc
  split at hc
  · simp at hc; subst hc; decide
  · simp only [List.mem_map, List.mem_reverse] at hc
    obtain ⟨d, hd, rfl⟩ := hc
    exact digitChar_isdigit d (Nat.digits_lt_base (by norm_num) hd)

theorem decimalValue_toDigits (n : Nat) : decimalValue (Nat.toDigits 10 n) = n := by
  rw [toDigits_eq]
  split
  · rename_i h; subst h; decide
  · unfold decimalValue
    rw [← List.map_reverse, List.reverse_reverse, List.map_map]
    have : List.map (digitValue ∘ Nat.digitChar) (Nat.digits 10 n) = Nat.digits 10 n := by
      conv_rhs => rw [← List.map_id (Nat.digits 10 n)]
      apply List.map_congr_left
      intro d hd
      simp [digitValue_digitChar d (Nat.digits_lt_base (by norm_num) hd)]
    rw [this, Nat.ofDigits_digits]

theorem toDigits_length_le (n e : Nat) (he : 0 < e) (h : n < 10 ^ e) :
    (Nat.toDigits 10 n).length ≤ e := by
  rw [toDigits_eq]
  split
  · simpa using he
  · rename_i hn
    have h1 := Nat.base_pow_length_digits_le 10 n (by norm_num) hn
    have h2 : 10 ^ (Nat.digits 10 n).length < 10 ^ (e + 1) := by
      rw [pow_succ]; omega
    have h3 := (Nat.pow_lt_pow_iff_right (by norm_num : 1 < 10)).1 h2
    simp only [List.length_map, List.length_reverse]
    omega

theorem ofDigits_replicate_zero (k : Nat) : Nat.ofDigits 10 (List.replicate k 0) = 0 := by
  induction k with
  | zero => rfl
  | succ k ih => simp [List.replicate_succ, Nat.ofDigits_cons, ih]

theorem decimalValue_pad (k : Nat) (t : List Char) :
    decimalValue (List.replicate k '0' ++ t) = decimalValue t := by
  unfold decimalValue
  have h0 : digitValue '0' = 0 := by decide
  simp [Nat.ofDigits_append, h0, ofDigits_replicate_zero]

theorem decimalValue_lt (t : List Char) (h : ∀ c ∈ t, isdigit c = true) :
    decimalValue t < 10 ^ t.length := by
  unfold decimalValue
  have := Nat.ofDigits_lt_base_pow_length (b := 10) (l := t.reverse.map digitValue)
    (by norm_num) (by
      intro x hx
      simp only [List.mem_map, List.mem_reverse] at hx
      obtain ⟨c, hc, rfl⟩ := hx
      exact digitValue_lt c (h c hc))
  simpa using this

/-- The string `getChecksumCode` leaves in `outputStr` once the digits are rendered. -/
theorem getChecksumCode_of_value (s out : List Char) (mode outLen : Nat)
    (hne : s ≠ []) (hd : ∀ c ∈ s, isdigit c = true)
    (hval : decimalValue s.reverse ≤ 2147483647) (hmod : 1 ≤ mode) (hlen : outLen ≤ 9) :
    getChecksumCode s out mode outLen =
      some (1,
        List.replicate (outLen - (Nat.toDigits 10 (decimalValue s.reverse % mode % 10 ^ outLen)).length) '0'
          ++ Nat.toDigits 10 (decimalValue s.reverse % mode % 10 ^ outLen)) := by
  have hfull : isFullDigitString s = true := (isFullDigitString_iff s).2 hd
  have hrne : s.reverse ≠ [] := by simpa using hne
  have hrd : ∀ c ∈ s.reverse, isdigit c = true := by
    intro c hc; exact hd c (List.mem_reverse.1 hc)
  have hstoi : stoi s.reverse = Except.ok (decimalValue s.reverse : Int) := by
    rw [stoi_digits s.reverse hrne hrd]
    have : ¬ (INT_MAX < (decimalValue s.reverse : Int)) := by unfold INT_MAX; omega
    simp [this]
  have hpow : powTenUnsigned outLen = some (10 ^ outLen) := by
    unfold powTenUnsigned UINT_RANGE
    have : 10 ^ outLen ≤ 10 ^ 9 := Nat.pow_le_pow_right (by norm_num) hlen
    have h9 : (10:Nat) ^ 9 = 1000000000 := by norm_num
    rw [if_pos (by omega)]
  have hmode : mode ≠ 0 := by omega
  set v := decimalValue s.reverse with hv
  have h1 : v % mode < 2147483648 := by
    have := Nat.mod_le v mode; omega
  have h2 : v % mode % 10 ^ outLen < 2147483648 := by
    have := Nat.mod_le (v % mode) (10 ^ outLen); omega
  unfold getChecksumCode
  simp only [hfull, hstoi, hpow, hmode, Bool.not_true, Bool.false_eq_true, if_false]
  rw [toUnsigned_natCast v (by unfold UINT_RANGE; omega), toInt_small _ h1,
    toUnsigned_natCast _ (by unfold UINT_RANGE; omega), toInt_small _ h2, to_string_natCast]
  unfold insertFront
  split
  · rfl
  · rename_i hlt
    have : outLen - (Nat.toDigits 10 (v % mode % 10 ^ outLen)).length = 0 := by omega
    rw [this]; simp


theorem padded_length (v outLen : Nat) (h1 : 1 ≤ outLen) (hlt : v < 10 ^ outLen) :
    (List.replicate (outLen - (Nat.toDigits 10 v).length) '0' ++ Nat.toDigits 10 v).length
      = outLen := by
  have := toDigits_length_le v outLen h1 hlt
  simp only [List.length_append, List.length_replicate]
  omega

theorem padded_isdigit (v k : Nat) :
    ∀ c ∈ List.replicate k '0' ++ Nat.toDigits 10 v, isdigit c = true := by
  intro c hc
  rcases List.mem_append.1 hc with h | h
  · rw [List.eq_of_mem_replicate h]; decide
  · exact toDigits_isdigit _ c h

/-- What `getChecksumCode` returns and what it writes on success do not depend on what the
output parameter held. -/
theorem getChecksumCode_output_independent (s out1 out2 : List Char) (mode outLen : Nat) :
    (getChecksumCode s out1 mode outLen).map (fun r => r.1) =
      (getChecksumCode s out2 mode outLen).map (fun r => r.1) ∧
    ∀ res1 res2, getChecksumCode s out1 mode outLen = some (1, res1) →
      getChecksumCode s out2 mode outLen = some (1, res2) → res1 = res2 := by
  unfold getChecksumCode
  cases isFullDigitString s
  · simp
  · simp only [Bool.not_true, Bool.false_eq_true, if_false]
    cases stoi s.reverse with
    | error e => simp
    | ok v =>
      simp only
      by_cases hm : mode = 0
      · simp [hm]
      · simp only [hm, if_false]
        cases powTenUnsigned outLen with
        | none => simp
        | some p =>
          simp only [Option.map_some', true_and]
          intro res1 res2 h1 h2
          simp only [Option.some.injEq, Prod.mk.injEq, true_and] at h1 h2
          rw [← h1, ← h2]

theorem isValidId_spec (s : List Char) (n : Nat) :
    isValidId s n = true ↔ s.length = n ∧ ∀ c ∈ s, isdigit c = true := by
  rw [← isFullDigitString_iff]
  unfold isValidId
  by_cases hn : n = s.length
  · cases hf : isFullDigitString s <;> simp [hn]
  · have : s.length ≠ n := fun h => hn h.symm
    simp [hn, this]

/-! ## The checksum: `getChecksumCode` -/

/-- C1: for a non-empty string of decimal digits whose reversal denotes a number of at most
2147483647, a modulus of at least 1 and `1 ≤ outLen ≤ 9`, `getChecksumCode` returns 1 and
leaves in the output exactly `outLen` decimal digits that denote
`(value of the reversed input mod modulus) mod 10^outLen`: its decimal rendering with
`'0'` characters put in front up to the length `outLen`. -/
theorem getChecksumCode_reverse_mod (s out : List Char) (modulus outLen : Nat)
    (hne : s ≠ []) (hd : ∀ c ∈ s, isdigit c = true)
    (hval : decimalValue s.reverse ≤ 2147483647)
    (hmod : 1 ≤ modulus) (h1 : 1 ≤ outLen) (h9 : outLen ≤ 9) :
    ∃ res, getChecksumCode s out modulus outLen = some (1, res) ∧
      res.length = outLen ∧ (∀ c ∈ res, isdigit c = true) ∧
      decimalValue res = decimalValue s.reverse % modulus % 10 ^ outLen ∧
      res = List.replicate
              (outLen - (Nat.toDigits 10 (decimalValue s.reverse % modulus % 10 ^ outLen)).length) '0'
            ++ Nat.toDigits 10 (decimalValue s.reverse % modulus % 10 ^ outLen) := by
  refine ⟨_, getChecksumCode_of_value s out modulus outLen hne hd hval hmod h9, ?_, ?_, ?_, rfl⟩
  · exact padded_length _ outLen h1 (Nat.mod_lt _ (by positivity))
  · exact padded_isdigit _ _
  · rw [decimalValue_pad, decimalValue_toDigits]

/-- C1, on the three inputs of the unit test: "1337" with 97 and 2, "99999" with 83 and 3,
"000001" with 101 and 3. -/
theorem getChecksumCode_reverse_mod_witness :
    ("1337".toList ≠ [] ∧ (∀ c ∈ "1337".toList, isdigit c = true) ∧
      decimalValue "1337".toList.reverse ≤ 2147483647 ∧ 1 ≤ 97 ∧ 1 ≤ 2 ∧ 2 ≤ 9) ∧
    (∃ res, getChecksumCode "1337".toList [] 97 2 = some (1, res) ∧
      res.length = 2 ∧ (∀ c ∈ res, isdigit c = true) ∧
      decimalValue res = decimalValue "1337".toList.reverse % 97 % 10 ^ 2 ∧
      res = List.replicate
              (2 - (Nat.toDigits 10 (decimalValue "1337".toList.reverse % 97 % 10 ^ 2)).length) '0'
            ++ Nat.toDigits 10 (decimalValue "1337".toList.reverse % 97 % 10 ^ 2)) ∧
    getChecksumCode "1337".toList [] 97 2 = some (1, "56".toList) ∧
    getChecksumCode "99999".toList [] 83 3 = some (1, "067".toList) ∧
    getChecksumCode "000001".toList [] 101 3 = some (1, "010".toList) := by
  have hv : decimalValue "1337".toList.reverse ≤ 2147483647 := by
    rw [← accumulateDigits_eq]; decide
  exact ⟨⟨by decide, by decide, hv, by decide, by decide, by decide⟩,
    getChecksumCode_reverse_mod "1337".toList [] 97 2 (by decide) (by decide) hv
      (by decide) (by decide) (by decide),
    by decide, by decide, by decide⟩

/-- C2 as written fails on the empty string, which is a string of decimal digits of length
at most `outLen`: `std::stoi` throws `std::invalid_argument` on it, the `catch` returns 0 and
the output keeps what it held. -/
theorem getChecksumCode_width_counterexample :
    (2 ≤ 9 ∧ 1 ≤ 97 ∧ (∀ c ∈ "".toList, isdigit c = true) ∧ "".toList.length ≤ 2) ∧
    getChecksumCode "".toList "xy".toList 97 2 = some (0, "xy".toList) ∧
    ¬ ∃ res, getChecksumCode "".toList "xy".toList 97 2 = some (1, res) ∧
        res.length = 2 ∧ ∀ c ∈ res, isdigit c = true := by
  refine ⟨⟨by decide, by decide, by decide, by decide⟩, by decide, ?_⟩
  rintro ⟨res, h, -⟩
  have h0 : getChecksumCode "".toList "xy".toList 97 2 = some (0, "xy".toList) := by decide
  rw [h0] at h
  simp at h

/-- C2, amended: for `outLen ≤ 9`, a modulus of at least 1 and a non-empty string of decimal
digits of length at most `outLen`, `getChecksumCode` returns 1 and the output has exactly
`outLen` characters, all of them decimal digits. -/
theorem getChecksumCode_width (s out : List Char) (modulus outLen : Nat)
    (hne : s ≠ []) (hd : ∀ c ∈ s, isdigit c = true) (hlen : s.length ≤ outLen)
    (h9 : outLen ≤ 9) (hmod : 1 ≤ modulus) :
    ∃ res, getChecksumCode s out modulus outLen = some (1, res) ∧
      res.length = outLen ∧ ∀ c ∈ res, isdigit c = true := by
  have hpos : 0 < s.length := List.length_pos.2 hne
  have hrd : ∀ c ∈ s.reverse, isdigit c = true := fun c hc => hd c (List.mem_reverse.1 hc)
  have hlt := decimalValue_lt s.reverse hrd
  rw [List.length_reverse] at hlt
  have hpow : 10 ^ s.length ≤ 10 ^ 9 := Nat.pow_le_pow_right (by norm_num) (by omega)
  have hval : decimalValue s.reverse ≤ 2147483647 := by
    have h9v : (10 : Nat) ^ 9 = 1000000000 := by norm_num
    omega
  exact ⟨_, getChecksumCode_of_value s out modulus outLen hne hd hval hmod h9,
    padded_length _ outLen (by omega) (Nat.mod_lt _ (by positivity)), padded_isdigit _ _⟩

/-- C2, amended, on the input "7" with modulus 97 and `outLen = 3`. -/
theorem getChecksumCode_width_witness :
    ("7".toList ≠ [] ∧ (∀ c ∈ "7".toList, isdigit c = true) ∧ "7".toList.length ≤ 3 ∧
      3 ≤ 9 ∧ 1 ≤ 97) ∧
    ∃ res, getChecksumCode "7".toList [] 97 3 = some (1, res) ∧
      res.length = 3 ∧ ∀ c ∈ res, isdigit c = true :=
  ⟨⟨by decide, by decide, by decide, by decide, by decide⟩,
    getChecksumCode_width "7".toList [] 97 3 (by decide) (by decide) (by decide) (by decide)
      (by decide)⟩

/-- C3: on a string with a character that is not a decimal digit, whatever the modulus and
`outLen`, `getChecksumCode` returns 0 and the output parameter keeps its value. -/
theorem getChecksumCode_rejects_non_digit (s out : List Char) (modulus outLen : Nat)
    (h : ∃ c ∈ s, isdigit c = false) :
    getChecksumCode s out modulus outLen = some (0, out) := by
  have hfull : isFullDigitString s = false := by
    rw [← Bool.not_eq_true, isFullDigitString_iff]
    obtain ⟨c, hc, hcd⟩ := h
    intro hall
    rw [hall c hc] at hcd
    exact Bool.noConfusion hcd
  unfold getChecksumCode
  simp [hfull]

/-- C3 on the input "a001" of the unit test, with modulus 97 and `outLen = 2`. -/
theorem getChecksumCode_rejects_non_digit_witness :
    (∃ c ∈ "a001".toList, isdigit c = false) ∧
    getChecksumCode "a001".toList "xy".toList 97 2 = some (0, "xy".toList) :=
  ⟨by decide, getChecksumCode_rejects_non_digit "a001".toList "xy".toList 97 2 (by decide)⟩

/-- C4: on a string of decimal digits whose reversal denotes a number above 2147483647,
`getChecksumCode` returns 0 and the output parameter keeps its value, whatever the modulus
and `outLen`: `std::stoi` throws `std::out_of_range`, which the `catch` turns into 0; no
wrapped value is used. -/
theorem getChecksumCode_overflow (s out : List Char) (modulus outLen : Nat)
    (hd : ∀ c ∈ s, isdigit c = true) (hval : 2147483647 < decimalValue s.reverse) :
    getChecksumCode s out modulus outLen = some (0, out) := by
  have hfull : isFullDigitString s = true := (isFullDigitString_iff s).2 hd
  have hne : s.reverse ≠ [] := by
    intro h
    rw [h] at hval
    exact absurd hval (by decide)
  have hrd : ∀ c ∈ s.reverse, isdigit c = true := fun c hc => hd c (List.mem_reverse.1 hc)
  have hstoi : stoi s.reverse = Except.error StoiError.out_of_range := by
    rw [stoi_digits s.reverse hne hrd]
    have : INT_MAX < (decimalValue s.reverse : Int) := by unfold INT_MAX; omega
    simp [this]
  unfold getChecksumCode
  simp [hfull, hstoi]

/-- C4 on the input "8463847412", whose reversal denotes 2147483648, and on
"00000000001", whose reversal denotes ten thousand million. -/
theorem getChecksumCode_overflow_witness :
    ((∀ c ∈ "8463847412".toList, isdigit c = true) ∧
      2147483647 < decimalValue "8463847412".toList.reverse) ∧
    getChecksumCode "8463847412".toList "xy".toList 97 2 = some (0, "xy".toList) ∧
    getChecksumCode "00000000001".toList "xy".toList 97 2 = some (0, "xy".toList) := by
  have hv : 2147483647 < decimalValue "8463847412".toList.reverse := by
    rw [← accumulateDigits_eq]; decide
  exact ⟨⟨by decide, hv⟩,
    getChecksumCode_overflow "8463847412".toList "xy".toList 97 2 (by decide) hv, by decide⟩

/-- C5: on a non-empty input made of `'0'` characters only, of any length, with a modulus of
at least 1 and `1 ≤ outLen ≤ 9`, `getChecksumCode` returns 1 and the output is the string of
exactly `outLen` characters `'0'`. -/
theorem getChecksumCode_all_zero (s out : List Char) (modulus outLen : Nat)
    (hne : s ≠ []) (hz : ∀ c ∈ s, c = '0')
    (hmod : 1 ≤ modulus) (h1 : 1 ≤ outLen) (h9 : outLen ≤ 9) :
    getChecksumCode s out modulus outLen = some (1, List.replicate outLen '0') := by
  have hd : ∀ c ∈ s, isdigit c = true := by
    intro c hc; rw [hz c hc]; decide
  have hs : s = List.replicate s.length '0' := List.eq_replicate_iff.2 ⟨rfl, hz⟩
  have hv : decimalValue s.reverse = 0 := by
    unfold decimalValue
    rw [List.reverse_reverse, hs, List.map_replicate]
    have h0 : digitValue '0' = 0 := by decide
    rw [h0, ofDigits_replicate_zero]
  rw [getChecksumCode_of_value s out modulus outLen hne hd (by omega) hmod h9, hv]
  have hd0 : Nat.toDigits 10 (0 % modulus % 10 ^ outLen) = ['0'] := by
    simp only [Nat.zero_mod]; rfl
  rw [hd0]
  obtain ⟨k, rfl⟩ : ∃ k, outLen = k + 1 := ⟨outLen - 1, by omega⟩
  simp only [List.length_singleton, Nat.add_sub_cancel]
  rw [← List.replicate_succ']

/-- C5 on the input "0000" of the unit test, with modulus 97 and `outLen = 2`. -/
theorem getChecksumCode_all_zero_witness :
    ("0000".toList ≠ [] ∧ (∀ c ∈ "0000".toList, c = '0') ∧ 1 ≤ 97 ∧ 1 ≤ 2 ∧ 2 ≤ 9) ∧
    getChecksumCode "0000".toList [] 97 2 = some (1, "00".toList) :=
  ⟨⟨by decide, by decide, by decide, by decide, by decide⟩,
    getChecksumCode_all_zero "0000".toList [] 97 2 (by decide) (by decide) (by decide)
      (by decide) (by decide)⟩

/-! ## The glyph table: `convertStringToDecDisplay` -/

theorem char_of_isdigit (c : Char) (h : isdigit c = true) :
    c ∈ ['0', '1', '2', '3', '4', '5', '6', '7', '8', '9'] := by
  rw [isdigit_iff] at h
  obtain ⟨n, hn⟩ : ∃ n, c.toNat = n := ⟨_, rfl⟩
  have hc : c = Char.ofNat n := by rw [← hn, Char.ofNat_toNat]
  rw [hn] at h
  obtain ⟨h1, h2⟩ := h
  subst hc
  interval_cases n <;> decide

theorem lookup_of_isdigit (c : Char) (h : isdigit c = true) :
    C_Map_DecToDisplay.lookup c = some (glyphOf c) := by
  have := char_of_isdigit c h
  simp only [List.mem_cons, List.mem_singleton, List.not_mem_nil, or_false] at this
  rcases this with h | h | h | h | h | h | h | h | h | h <;> subst h <;> decide

theorem lookup_of_not_isdigit (c : Char) (h : isdigit c = false) :
    C_Map_DecToDisplay.lookup c = none := by
  have hne : ∀ d, isdigit d = true → (c == d) = false := by
    intro d hd
    rw [beq_eq_false_iff_ne]
    rintro rfl
    rw [hd] at h
    exact Bool.noConfusion h
  simp [C_Map_DecToDisplay, List.lookup, hne '0' (by decide), hne '1' (by decide),
    hne '2' (by decide), hne '3' (by decide), hne '4' (by decide), hne '5' (by decide),
    hne '6' (by decide), hne '7' (by decide), hne '8' (by decide), hne '9' (by decide)]

theorem convertLoop_digits (s : List Char) : ∀ acc : List Nat,
    (∀ c ∈ s, isdigit c = true) → convertLoop s acc = (1, acc ++ s.map glyphOf) := by
  induction s with
  | nil => intro acc _; simp [convertLoop]
  | cons c rest ih =>
    intro acc h
    rw [convertLoop, lookup_of_isdigit c (h c (by simp))]
    simp only
    rw [ih _ (fun d hd => h d (List.mem_cons_of_mem _ hd))]
    simp

theorem convertLoop_fst (s : List Char) : ∀ acc : List Nat,
    ((convertLoop s acc).1 = 0 ↔ ∃ c ∈ s, isdigit c = false) ∧
    ((convertLoop s acc).1 = 0 ∨ (convertLoop s acc).1 = 1) := by
  induction s with
  | nil => intro acc; simp [convertLoop]
  | cons c rest ih =>
    intro acc
    rw [convertLoop]
    cases hc : isdigit c with
    | true =>
      rw [lookup_of_isdigit c hc]
      simp only
      refine ⟨?_, (ih _).2⟩
      rw [(ih _).1]
      simp [hc]
    | false =>
      rw [lookup_of_not_isdigit c hc]
      simp [hc]

/-- C6: on a string of characters `'0' .. '9'`, the empty string included,
`convertStringToDecDisplay` returns 1 and the output, whatever it held before, has the
length of the input and holds at each index the pattern that the table
0:0x77, 1:0x42, 2:0xB6, 3:0xD6, 4:0xC3, 5:0xD5, 6:0xF5, 7:0x46, 8:0xF7, 9:0xD7
gives to the input character at that index. -/
theorem convertStringToDecDisplay_digits (s : List Char) (out : List Nat)
    (h : ∀ c ∈ s, isdigit c = true) :
    ∃ res, convertStringToDecDisplay s out = (1, res) ∧ res.length = s.length ∧
      (∀ i (hi : i < s.length), res[i]? =
        some ([0x77, 0x42, 0xB6, 0xD6, 0xC3, 0xD5, 0xF5, 0x46, 0xF7, 0xD7].getD
          (digitValue (s.get ⟨i, hi⟩)) 0)) ∧
      res = s.map glyphOf := by
  refine ⟨s.map glyphOf, ?_, by simp, ?_, rfl⟩
  · unfold convertStringToDecDisplay
    rw [convertLoop_digits s [] h]
    simp
  · intro i hi
    rw [List.getElem?_map, List.getElem?_eq_getElem hi]
    rfl

/-- C6 on the input "0123456789" of the unit test, with an output that held two bytes. -/
theorem convertStringToDecDisplay_digits_witness :
    (∀ c ∈ "0123456789".toList, isdigit c = true) ∧
    (∃ res, convertStringToDecDisplay "0123456789".toList [1, 2] = (1, res) ∧
      res.length = "0123456789".toList.length ∧
      (∀ i (hi : i < "0123456789".toList.length), res[i]? =
        some ([0x77, 0x42, 0xB6, 0xD6, 0xC3, 0xD5, 0xF5, 0x46, 0xF7, 0xD7].getD
          (digitValue ("0123456789".toList.get ⟨i, hi⟩)) 0)) ∧
      res = "0123456789".toList.map glyphOf) ∧
    convertStringToDecDisplay "0123456789".toList [1, 2] =
      (1, [0x77, 0x42, 0xB6, 0xD6, 0xC3, 0xD5, 0xF5, 0x46, 0xF7, 0xD7]) ∧
    convertStringToDecDisplay [] [1, 2] = (1, []) :=
  ⟨by decide, convertStringToDecDisplay_digits "0123456789".toList [1, 2] (by decide),
    by decide, by decide⟩

theorem not_isdigit_of_isAlpha (c : Char) (h : c.isAlpha = true) : isdigit c = false := by
  rw [← Bool.not_eq_true, isdigit_iff]
  simp only [Char.isAlpha, Char.isUpper, Char.isLower, Bool.or_eq_true, Bool.and_eq_true,
    decide_eq_true_eq, ge_iff_le, UInt32.le_def, Fin.le_def] at h
  have hn : c.toNat = c.val.val.val := rfl
  rw [hn]
  rcases h with ⟨h1, h2⟩ | ⟨h1, h2⟩
  · have : (65 : UInt32).val.val ≤ c.val.val.val := h1
    have e : (65 : UInt32).val.val = 65 := rfl
    omega
  · have : (97 : UInt32).val.val ≤ c.val.val.val := h1
    have e : (97 : UInt32).val.val = 97 := rfl
    omega

/-- C7: `convertStringToDecDisplay` returns 0 exactly when the input has a character
outside `'0' .. '9'`, and it returns 1 otherwise; so every string with a letter in it,
wherever the letter stands, is rejected. -/
theorem convertStringToDecDisplay_fails_iff (s : List Char) (out : List Nat) :
    ((convertStringToDecDisplay s out).1 = 0 ↔ ∃ c ∈ s, isdigit c = false) ∧
    ((convertStringToDecDisplay s out).1 = 0 ∨ (convertStringToDecDisplay s out).1 = 1) ∧
    ((∃ c ∈ s, c.isAlpha = true) → (convertStringToDecDisplay s out).1 = 0) := by
  unfold convertStringToDecDisplay
  refine ⟨(convertLoop_fst s []).1, (convertLoop_fst s []).2, ?_⟩
  rintro ⟨c, hc, ha⟩
  exact (convertLoop_fst s []).1.2 ⟨c, hc, not_isdigit_of_isAlpha c ha⟩

/-- C7 on the input "AB1337" of the unit test, and on "13B7" with the letter inside. -/
theorem convertStringToDecDisplay_fails_iff_witness :
    (convertStringToDecDisplay "AB1337".toList []).1 = 0 ∧
    (convertStringToDecDisplay "13B7".toList []).1 = 0 ∧
    (convertStringToDecDisplay "1337".toList []).1 = 1 :=
  ⟨(convertStringToDecDisplay_fails_iff "AB1337".toList []).2.2 ⟨'A', by decide, by decide⟩,
    (convertStringToDecDisplay_fails_iff "13B7".toList []).1.2 ⟨'B', by decide, by decide⟩,
    by decide⟩

/-! ## The format of an ID: `isValidId` -/

/-- C8: `isValidId s n` is true exactly when the length of `s` is `n` and every character
of `s` is a decimal digit. -/
theorem isValidId_iff (s : List Char) (n : Nat) :
    isValidId s n = true ↔ s.length = n ∧ ∀ c ∈ s, isdigit c = true :=
  isValidId_spec s n

/-- C8 on the inputs of the unit test: "1337" is accepted for the length 4; "10000",
"00001" and "001" are rejected. -/
theorem isValidId_iff_witness :
    isValidId "1337".toList 4 = true ∧ isValidId "10000".toList 4 = false ∧
    isValidId "00001".toList 4 = false ∧ isValidId "001".toList 4 = false ∧
    isValidId "13a7".toList 4 = false :=
  ⟨(isValidId_iff "1337".toList 4).2 ⟨by decide, by decide⟩, by decide, by decide, by decide,
    by decide⟩

/-! ## The loop of `main` -/

theorem checksum_of_valid_id (id out : List Char) (h : isValidId id I_ASSET_ID_LEN = true) :
    ∃ cs, getChecksumCode id out I_CHECKSUM_MOD I_CHECKSUM_LEN = some (1, cs) ∧
      cs.length = 2 ∧ (∀ c ∈ cs, isdigit c = true) ∧
      decimalValue cs = decimalValue id.reverse % 97 % 100 := by
  obtain ⟨hlen, hd⟩ := (isValidId_spec id I_ASSET_ID_LEN).1 h
  have hne : id ≠ [] := by
    intro h0; rw [h0] at hlen; exact absurd hlen (by decide)
  have hrd : ∀ c ∈ id.reverse, isdigit c = true := fun c hc => hd c (List.mem_reverse.1 hc)
  have hlt := decimalValue_lt id.reverse hrd
  rw [List.length_reverse, hlen] at hlt
  have hval : decimalValue id.reverse ≤ 2147483647 := by
    have e : (10 : Nat) ^ I_ASSET_ID_LEN = 10000 := by decide
    omega
  have hlt2 : decimalValue id.reverse % I_CHECKSUM_MOD % 10 ^ I_CHECKSUM_LEN
      < 10 ^ I_CHECKSUM_LEN := Nat.mod_lt _ (by decide)
  refine ⟨_, getChecksumCode_of_value id out I_CHECKSUM_MOD I_CHECKSUM_LEN hne hd hval
    (by decide) (by decide), ?_, ?_, ?_⟩
  · exact padded_length _ I_CHECKSUM_LEN (by decide) hlt2
  · exact padded_isdigit _ _
  · rw [decimalValue_pad, decimalValue_toDigits]; rfl

/-- The iteration of the loop of `main` on a well-formed ID that is not in `idSet`, from a state
whose row buffer has `I_PNG_DATA_LEN` bytes. -/
theorem loopBody_valid (st : MainState) (id cs : List Char)
    (hsize : st.pngImageData.length = I_PNG_DATA_LEN)
    (hvalid : isValidId id I_ASSET_ID_LEN = true) (hnew : id ∉ st.idSet)
    (hcs : getChecksumCode id st.checkSumStr I_CHECKSUM_MOD I_CHECKSUM_LEN = some (1, cs))
    (hcl : cs.length = 2) (hcd : ∀ c ∈ cs, isdigit c = true) :
    ∃ st1, loopBody st id =
        some (st1, some { fileName := id ++ ".png".toList, imgWidth := 256, imgHeight := 1,
                          data := 0 :: ((cs ++ id).map glyphOf ++ List.replicate 25 0) }) ∧
      st1.pngImageData = 0 :: ((cs ++ id).map glyphOf ++ List.replicate 25 0) ∧
      st1.idSet = id :: st.idSet := by
  obtain ⟨hlen, hd⟩ := (isValidId_spec id I_ASSET_ID_LEN).1 hvalid
  have hall : ∀ c ∈ cs ++ id, isdigit c = true := by
    intro c hc
    rcases List.mem_append.1 hc with h | h
    · exact hcd c h
    · exact hd c h
  have hconv : ∀ o, convertStringToDecDisplay (cs ++ id) o = (1, (cs ++ id).map glyphOf) := by
    intro o
    unfold convertStringToDecDisplay
    rw [convertLoop_digits (cs ++ id) [] hall]
    simp
  have hrep : replace (assign st.pngImageData.length 0) I_PNG_DATA_OFFSET
      ((cs ++ id).map glyphOf).length ((cs ++ id).map glyphOf) =
      some (0 :: ((cs ++ id).map glyphOf ++ List.replicate 25 0)) := by
    have hl : ((cs ++ id).map glyphOf).length = 6 := by
      simp only [List.length_map, List.length_append, hcl, hlen]; rfl
    rw [hsize, hl]
    unfold replace assign I_PNG_DATA_LEN I_PNG_DATA_OFFSET
    simp [List.replicate_succ]
  unfold loopBody
  simp only [hnew, if_false, hvalid, Bool.not_true, Bool.false_eq_true, hcs, hconv]
  simp only [one_ne_zero, if_false, hrep]
  exact ⟨_, rfl, rfl, rfl⟩

/-- Every iteration of the loop of `main` ends normally and keeps the size of the row buffer;
it puts the line into `idSet` and nothing else. -/
theorem loopBody_invariant (st : MainState) (line : List Char)
    (hsize : st.pngImageData.length = I_PNG_DATA_LEN) :
    ∃ st1 call, loopBody st line = some (st1, call) ∧
      st1.pngImageData.length = I_PNG_DATA_LEN ∧
      (∀ x, x ∈ st1.idSet ↔ x = line ∨ x ∈ st.idSet) := by
  by_cases hdup : line ∈ st.idSet
  · refine ⟨st, none, by simp [loopBody, hdup], hsize, ?_⟩
    intro x
    constructor
    · exact fun h => Or.inr h
    · rintro (rfl | h)
      · exact hdup
      · exact h
  · cases hvalid : isValidId line I_ASSET_ID_LEN with
    | false =>
      refine ⟨{ st with idSet := line :: st.idSet }, none, by simp [loopBody, hdup, hvalid],
        hsize, ?_⟩
      intro x; simp
    | true =>
      obtain ⟨cs, hcs, hcl, hcd, -⟩ := checksum_of_valid_id line st.checkSumStr hvalid
      obtain ⟨hlen, -⟩ := (isValidId_spec line I_ASSET_ID_LEN).1 hvalid
      obtain ⟨st1, hbody, hbuf, hset⟩ := loopBody_valid st line cs hsize hvalid hdup hcs hcl hcd
      refine ⟨st1, _, hbody, ?_, ?_⟩
      · rw [hbuf]
        simp only [List.length_cons, List.length_append, List.length_map, List.length_replicate,
          hcl, hlen]
        rfl
      · intro x; rw [hset]; simp

/-- The loop of `main` ends normally on every list of lines; afterwards the row buffer has its
size and `idSet` holds the lines read. -/
theorem mainLoop_invariant (lines : List (List Char)) : ∀ st : MainState,
    st.pngImageData.length = I_PNG_DATA_LEN →
    ∃ st1 calls, mainLoop lines st = some (st1, calls) ∧
      st1.pngImageData.length = I_PNG_DATA_LEN ∧
      (∀ x, x ∈ st1.idSet ↔ x ∈ lines ∨ x ∈ st.idSet) := by
  induction lines with
  | nil => intro st h; exact ⟨st, [], rfl, h, by simp⟩
  | cons line rest ih =>
    intro st h
    obtain ⟨st1, call, hbody, hsize1, hset1⟩ := loopBody_invariant st line h
    obtain ⟨st2, calls, hloop, hsize2, hset2⟩ := ih st1 hsize1
    refine ⟨st2, call.toList ++ calls, ?_, hsize2, ?_⟩
    · rw [mainLoop, hbody]; simp only; rw [hloop]
    · intro x
      rw [hset2, hset1]
      simp only [List.mem_cons]
      tauto

/-- C9: after any lines read before, the iteration of the loop of `main` on an ID that
`isValidId` accepts for the length 4 calls the image writer exactly when the ID was not
read before, and then with a buffer of exactly 32 bytes: byte 0 is 0x00, bytes 1 and 2 are
the glyph patterns of the two digits of `getChecksumCode(id, 97, 2)`, bytes 3 to 6 the glyph
patterns of the four digits of the ID in order, and bytes 7 to 31 are 0x00. -/
theorem main_row_buffer (prev : List (List Char)) (id : List Char)
    (hvalid : isValidId id 4 = true) :
    ∃ st calls cs, mainLoop prev initialState = some (st, calls) ∧
      (∀ out, getChecksumCode id out 97 2 = some (1, cs)) ∧ cs.length = 2 ∧ id.length = 4 ∧
      ∃ st1 call, loopBody st id = some (st1, call) ∧
        (id ∈ prev → call = none) ∧
        (id ∉ prev → ∃ buf,
          call = some { fileName := id ++ ".png".toList, imgWidth := 256, imgHeight := 1,
                        data := buf } ∧
          buf.length = 32 ∧
          buf = 0 :: ((cs ++ id).map glyphOf ++ List.replicate 25 0)) := by
  obtain ⟨st, calls, hloop, hsize, hset⟩ := mainLoop_invariant prev initialState rfl
  obtain ⟨hlen, -⟩ := (isValidId_spec id 4).1 hvalid
  obtain ⟨cs, hcs, hcl, hcd, -⟩ := checksum_of_valid_id id st.checkSumStr hvalid
  have hany : ∀ out, getChecksumCode id out 97 2 = some (1, cs) := by
    intro out
    obtain ⟨cs1, hcs1, -⟩ := checksum_of_valid_id id out hvalid
    have e1 : cs1 = cs :=
      (getChecksumCode_output_independent id out st.checkSumStr 97 2).2 cs1 cs hcs1 hcs
    rw [← e1]; exact hcs1
  refine ⟨st, calls, cs, hloop, hany, hcl, hlen, ?_⟩
  have hmem : id ∈ st.idSet ↔ id ∈ prev := by
    rw [hset]; simp [initialState]
  by_cases hdup : id ∈ prev
  · refine ⟨st, none, ?_, fun _ => rfl, fun h => absurd hdup h⟩
    simp [loopBody, hmem.2 hdup]
  · have hnew : id ∉ st.idSet := fun h => hdup (hmem.1 h)
    obtain ⟨st1, hbody, -, -⟩ := loopBody_valid st id cs hsize hvalid hnew hcs hcl hcd
    refine ⟨st1, _, hbody, fun h => absurd h hdup, fun _ => ⟨_, rfl, ?_, rfl⟩⟩
    simp only [List.length_cons, List.length_append, List.length_map, List.length_replicate,
      hcl, hlen]

/-- C9 on the ID "1337" read after the lines "0001" and "abc": the glyphs of "561337" stand at
the offsets 1 to 6. -/
theorem main_row_buffer_witness :
    isValidId "1337".toList 4 = true ∧
    (∃ st calls cs, mainLoop ["0001".toList, "abc".toList] initialState = some (st, calls) ∧
      (∀ out, getChecksumCode "1337".toList out 97 2 = some (1, cs)) ∧ cs.length = 2 ∧
      "1337".toList.length = 4 ∧
      ∃ st1 call, loopBody st "1337".toList = some (st1, call) ∧
        ("1337".toList ∈ ["0001".toList, "abc".toList] → call = none) ∧
        ("1337".toList ∉ ["0001".toList, "abc".toList] → ∃ buf,
          call = some { fileName := "1337".toList ++ ".png".toList, imgWidth := 256,
                        imgHeight := 1, data := buf } ∧
          buf.length = 32 ∧
          buf = 0 :: ((cs ++ "1337".toList).map glyphOf ++ List.replicate 25 0))) ∧
    (mainLoop ["0001".toList, "abc".toList, "1337".toList] initialState).map
        (fun r => r.2.map (fun call => call.data)) =
      some [[0, 0xD6, 0x77, 0x77, 0x77, 0x77, 0x42] ++ List.replicate 25 0,
            [0, 0xD5, 0xF5, 0x42, 0xD6, 0xD6, 0x46] ++ List.replicate 25 0] ∧
    "561337".toList.map glyphOf = [0xD5, 0xF5, 0x42, 0xD6, 0xD6, 0x46] :=
  ⟨by decide, main_row_buffer ["0001".toList, "abc".toList] "1337".toList (by decide),
    by decide, by decide⟩

/-! ## The row loop of `createPngImage1BitDepth` -/

/-- The row loop takes row `y` from the offset `y * imgWidth`: when it ends normally from the
start of the buffer, the rows handed to libpng are the `rowBytes imgWidth` bytes at the
offsets `0, imgWidth, 2 * imgWidth, ...`. -/
theorem writeRows_stride (data : List Nat) (imgWidth : Nat) : ∀ (imgHeight rowData : Nat)
    (rows : List (List Nat)), writeRows data imgWidth imgHeight rowData = some rows →
    rows = (List.range imgHeight).map
      (fun y => (data.drop (rowData + y * imgWidth)).take (rowBytes imgWidth)) ∧
    ∀ y, y < imgHeight → rowData + y * imgWidth + rowBytes imgWidth ≤ data.length := by
  intro imgHeight
  induction imgHeight with
  | zero => intro rowData rows h; simp [writeRows] at h; simp [h]
  | succ k ih =>
    intro rowData rows h
    rw [writeRows] at h
    cases hrow : png_write_row data rowData imgWidth with
    | none => rw [hrow] at h; simp at h
    | some row =>
      rw [hrow] at h
      cases hrest : writeRows data imgWidth k (rowData + imgWidth) with
      | none => rw [hrest] at h; simp at h
      | some rest =>
        rw [hrest] at h
        simp only [Option.some.injEq] at h
        obtain ⟨ih1, ih2⟩ := ih (rowData + imgWidth) rest hrest
        unfold png_write_row at hrow
        split at hrow
        · rename_i hle
          simp only [Option.some.injEq] at hrow
          constructor
          · rw [← h, List.range_succ_eq_map, List.map_cons, List.map_map, ← hrow, ih1]
            simp only [Nat.zero_mul, Nat.add_zero, List.cons.injEq, true_and]
            apply List.map_congr_left
            intro y _
            simp only [Function.comp, Nat.succ_eq_add_one]
            have : rowData + (y + 1) * imgWidth = rowData + imgWidth + y * imgWidth := by ring
            rw [this]
          · intro y hy
            cases y with
            | zero => simpa using hle
            | succ y =>
              have := ih2 y (by omega)
              have e : rowData + (y + 1) * imgWidth = rowData + imgWidth + y * imgWidth := by
                ring
              omega
        · simp at hrow

/-- C10 fails on the code: for the width 8, the height 2 and a buffer of
`2 * ceil(8 / 8) = 2` bytes, row 0 is the byte at offset 0, but the row pointer then moves
by `imgWidth = 8` bytes, so row 1 is read at offset 8, outside the buffer, and not at
offset `1 * ceil(8 / 8) = 1`, where the second byte-padded row stands. -/
theorem writeRows_second_row_outside :
    (0 < 8 ∧ 0 < 2 ∧ 2 * rowBytes 8 ≤ [0x00, 0xFF].length) ∧
    png_write_row [0x00, 0xFF] 0 8 = some [0x00] ∧
    png_write_row [0x00, 0xFF] (0 + 8) 8 = none ∧
    writeRows [0x00, 0xFF] 8 2 0 = none ∧
    png_write_row [0x00, 0xFF] (1 * rowBytes 8) 8 = some [0xFF] := by
  decide

/-! ## The whole of `createPngImage1BitDepth` -/

/-- The rows the row loop stores: at most `rowsLeft` of them, all `rowsLeft` when the loop
runs to its end, and the row at index `k` is the complement of the `rowBytes imgWidth`
bytes of `data` from the offset `rowData + k * imgWidth` on. -/
theorem rowLoop_rows (env : PngEnv) (data : List Nat) (imgWidth : Nat) :
    ∀ (rowsLeft y rowData : Nat) (completed : Bool) (rows : List (List Nat)),
    rowLoop env data imgWidth rowsLeft y rowData = some (completed, rows) →
    rows.length ≤ rowsLeft ∧ (completed = true → rows.length = rowsLeft) ∧
    ∀ k (hk : k < rows.length), rows.get ⟨k, hk⟩ =
      png_do_invert ((data.drop (rowData + k * imgWidth)).take (rowBytes imgWidth)) := by
  intro rowsLeft
  induction rowsLeft with
  | zero =>
    intro y rowData completed rows h
    simp only [rowLoop, Option.some.injEq, Prod.mk.injEq] at h
    obtain ⟨-, rfl⟩ := h
    simp
  | succ n ih =>
    intro y rowData completed rows h
    rw [rowLoop] at h
    cases hrow : png_write_row data rowData imgWidth with
    | none => rw [hrow] at h; simp at h
    | some row =>
      rw [hrow] at h
      simp only at h
      have hrowv : row = (data.drop rowData).take (rowBytes imgWidth) := by
        unfold png_write_row at hrow
        split at hrow
        · simpa using hrow.symm
        · simp at hrow
      by_cases hf : env.fault (PngCallSite.write_row y) = true
      · simp only [hf, if_true, Option.some.injEq, Prod.mk.injEq] at h
        obtain ⟨rfl, rfl⟩ := h
        simp
      · simp only [hf, Bool.false_eq_true, if_false] at h
        cases hrest : rowLoop env data imgWidth n (y + 1) (rowData + imgWidth) with
        | none => rw [hrest] at h; simp at h
        | some res =>
          obtain ⟨c, rest⟩ := res
          rw [hrest] at h
          simp only [Option.some.injEq, Prod.mk.injEq] at h
          obtain ⟨rfl, rfl⟩ := h
          obtain ⟨h1, h2, h3⟩ := ih (y + 1) (rowData + imgWidth) c rest hrest
          refine ⟨by simp; omega, fun hc => by simp [h2 hc], ?_⟩
          intro k hk
          cases k with
          | zero => simp [hrowv]
          | succ k =>
            have hk1 : k < rest.length := by simpa using hk
            have := h3 k hk1
            simp only [List.get_eq_getElem, List.getElem_cons_succ] at this ⊢
            rw [this]
            have e : rowData + imgWidth + k * imgWidth = rowData + (k + 1) * imgWidth := by ring
            rw [e]

/-- The file `createPngImage1BitDepth` opened is still open when the function returns exactly
on its failure returns after `fopen` succeeded. -/
theorem createPngImage1BitDepth_fileOpen_iff (env : PngEnv) (fileName : List Char)
    (imgWidth imgHeight : Int) (data : List Nat) (out : PngOutcome)
    (h : createPngImage1BitDepth env fileName imgWidth imgHeight data = some out) :
    out.fileOpen = true ↔ env.fopenOk = true ∧ out.returned = false := by
  unfold createPngImage1BitDepth at h
  split at h
  · rename_i h1; simp only [Option.some.injEq] at h; subst h; simp at h1; simp [h1]
  · rename_i h1
    simp at h1
    split at h
    · simp only [Option.some.injEq] at h; subst h; simp [h1]
    · split at h
      · simp only [Option.some.injEq] at h; subst h; simp [h1]
      · simp only at h
        split at h
        · simp only [Option.some.injEq] at h; subst h; simp [h1]
        · split at h
          · simp only [Option.some.injEq] at h; subst h; simp [h1]
          · split at h
            · simp at h
            · simp only [Option.some.injEq] at h; subst h; simp [h1]
            · split at h
              · simp only [Option.some.injEq] at h; subst h; simp [h1]
              · simp only [Option.some.injEq] at h; subst h; simp

/-- C11 fails on the code: `fclose` stands only before the final `return true`. With the file
opened, the function returns `false` with the file still open when
`png_create_write_struct` fails, when `png_create_info_struct` fails, and when libpng
reports an error through `setjmp` (here: the width 0, which `png_set_IHDR` rejects); only
the normal completion has closed the file. -/
theorem createPngImage1BitDepth_leaves_file_open :
    (createPngImage1BitDepth quietEnv "0000.png".toList 256 1 (List.replicate 32 0)).map
        (fun o => (o.returned, o.fileOpen)) = some (true, false) ∧
    (createPngImage1BitDepth { quietEnv with writeStructOk := false } "0000.png".toList 256 1
        (List.replicate 32 0)).map (fun o => (o.returned, o.fileOpen)) = some (false, true) ∧
    (createPngImage1BitDepth { quietEnv with infoStructOk := false } "0000.png".toList 256 1
        (List.replicate 32 0)).map (fun o => (o.returned, o.fileOpen)) = some (false, true) ∧
    (createPngImage1BitDepth quietEnv "0000.png".toList 0 1 (List.replicate 32 0)).map
        (fun o => (o.returned, o.fileOpen)) = some (false, true) ∧
    (createPngImage1BitDepth { quietEnv with fault := fun c => c == PngCallSite.write_end }
        "0000.png".toList 256 1 (List.replicate 32 0)).map
        (fun o => (o.returned, o.fileOpen)) = some (false, true) := by
  decide

/-- What `createPngImage1BitDepth` does once the file is open, the structures exist and
`png_set_IHDR` and `png_write_info` have gone through: any outcome with a header or a row
comes from the row loop run from the start of the buffer. -/
theorem createPngImage1BitDepth_inv (env : PngEnv) (fileName : List Char)
    (imgWidth imgHeight : Int) (data : List Nat) (out : PngOutcome)
    (h : createPngImage1BitDepth env fileName imgWidth imgHeight data = some out) :
    (out.header = none ∧ out.rows = [] ∧ out.returned = false) ∨
    (out.header = some
        { width := toUnsigned imgWidth, height := toUnsigned imgHeight, bit_depth := 1,
          color_type := PNG_COLOR_TYPE_GRAY, interlace_type := PNG_INTERLACE_NONE,
          compression_type := PNG_COMPRESSION_TYPE_DEFAULT,
          filter_type := PNG_FILTER_TYPE_DEFAULT } ∧
      png_check_IHDR
        { width := toUnsigned imgWidth, height := toUnsigned imgHeight, bit_depth := 1,
          color_type := PNG_COLOR_TYPE_GRAY, interlace_type := PNG_INTERLACE_NONE,
          compression_type := PNG_COMPRESSION_TYPE_DEFAULT,
          filter_type := PNG_FILTER_TYPE_DEFAULT } = true ∧
      ∃ completed, rowLoop env data imgWidth.toNat imgHeight.toNat 0 0
          = some (completed, out.rows) ∧ (out.returned = true → completed = true)) := by
  unfold createPngImage1BitDepth at h
  split at h
  · simp only [Option.some.injEq] at h; subst h; simp
  · split at h
    · simp only [Option.some.injEq] at h; subst h; simp
    · split at h
      · simp only [Option.some.injEq] at h; subst h; simp
      · simp only at h
        split at h
        · simp only [Option.some.injEq] at h; subst h; simp
        · rename_i hchk
          simp only [Bool.or_eq_true, Bool.not_eq_true', not_or, Bool.not_eq_false,
            Bool.not_eq_true] at hchk
          split at h
          · simp only [Option.some.injEq] at h; subst h; simp
          · split at h
            · simp at h
            · rename_i rows hloop
              simp only [Option.some.injEq] at h; subst h
              exact Or.inr ⟨rfl, hchk.1, false, hloop, by simp⟩
            · rename_i rows hloop
              split at h
              · simp only [Option.some.injEq] at h; subst h
                exact Or.inr ⟨rfl, hchk.1, true, hloop, by simp⟩
              · simp only [Option.some.injEq] at h; subst h
                exact Or.inr ⟨rfl, hchk.1, true, hloop, by simp⟩

theorem rowLoop_single_row (data : List Nat) (imgWidth : Nat)
    (hlen : data.length = rowBytes imgWidth) :
    rowLoop quietEnv data imgWidth 1 0 0 = some (true, [png_do_invert data]) := by
  have hrow : png_write_row data 0 imgWidth = some data := by
    unfold png_write_row
    rw [if_pos (by omega)]
    simp [← hlen]
  simp [rowLoop, hrow, quietEnv]

theorem createPngImage1BitDepth_reference (fileName : List Char) (data : List Nat)
    (hlen : data.length = 32) :
    createPngImage1BitDepth quietEnv fileName 256 1 data =
      some { returned := true, fileOpen := false,
             header := some { width := 256, height := 1, bit_depth := 1, color_type := 0,
                              interlace_type := 0, compression_type := 0, filter_type := 0 },
             rows := [png_do_invert data] } := by
  have hloop : rowLoop quietEnv data (256 : Int).toNat (1 : Int).toNat 0 0
      = some (true, [png_do_invert data]) :=
    rowLoop_single_row data 256 (by rw [hlen]; rfl)
  have hchk : png_check_IHDR
      { width := toUnsigned 256, height := toUnsigned 1, bit_depth := 1,
        color_type := PNG_COLOR_TYPE_GRAY, interlace_type := PNG_INTERLACE_NONE,
        compression_type := PNG_COMPRESSION_TYPE_DEFAULT,
        filter_type := PNG_FILTER_TYPE_DEFAULT } = true := by decide
  have hu : toUnsigned 256 = 256 := by decide
  have hu1 : toUnsigned 1 = 1 := by decide
  unfold createPngImage1BitDepth
  simp only [hloop, hchk]
  simp [quietEnv, hu, hu1, PNG_COLOR_TYPE_GRAY, PNG_INTERLACE_NONE, PNG_COMPRESSION_TYPE_DEFAULT,
    PNG_FILTER_TYPE_DEFAULT]

theorem xor_ff_testBit (b i : Nat) (hi : i < 8) : (b ^^^ 0xFF).testBit i = !b.testBit i := by
  rw [Nat.testBit_xor]
  have : (0xFF : Nat).testBit i = true := by interval_cases i <;> rfl
  rw [this]
  simp

/-- Every row `createPngImage1BitDepth` stores is the complement, bit for bit, of the
`rowBytes imgWidth` bytes the row loop read for it, and the loop reads row `k` at the
offset `k * imgWidth` of the buffer; a call that returns `true` has stored all `imgHeight`
rows. -/
theorem stored_rows_read_at_stride (env : PngEnv) (fileName : List Char)
    (imgWidth imgHeight : Int) (data : List Nat) (out : PngOutcome)
    (hrun : createPngImage1BitDepth env fileName imgWidth imgHeight data = some out) :
    (out.returned = true → out.rows.length = imgHeight.toNat) ∧
    (∀ k (hk : k < out.rows.length), out.rows.get ⟨k, hk⟩ =
      ((data.drop (k * imgWidth.toNat)).take (rowBytes imgWidth.toNat)).map
        (fun b => b ^^^ 0xFF)) ∧
    (∀ b i, i < 8 → (b ^^^ 0xFF).testBit i = !b.testBit i) := by
  refine ⟨?_, ?_, xor_ff_testBit⟩
  · intro hret
    rcases createPngImage1BitDepth_inv env fileName imgWidth imgHeight data out hrun with
      h | ⟨-, -, c, hloop, hc⟩
    · rw [h.2.2] at hret; exact Bool.noConfusion hret
    · exact (rowLoop_rows env data _ _ _ _ c out.rows hloop).2.1 (hc hret)
  · intro k hk
    rcases createPngImage1BitDepth_inv env fileName imgWidth imgHeight data out hrun with
      h | ⟨-, -, c, hloop, -⟩
    · have : out.rows.length = 0 := by rw [h.2.1]; rfl
      omega
    · have := (rowLoop_rows env data _ _ _ _ c out.rows hloop).2.2 k hk
      rw [this]
      simp [png_do_invert]

/-- An image of one row whose buffer is exactly that row is stored as the complement of the
buffer; so the row of the reference call is stored with byte 0 and bytes 7 to 31 equal to
0xFF and bytes 1 to 6 the complements of the six glyph patterns. -/
theorem reference_row_inverted (fileName : List Char) (glyphs : List Nat)
    (hg : glyphs.length = 6) :
    (createPngImage1BitDepth quietEnv fileName 256 1
        (0 :: (glyphs ++ List.replicate 25 0))).map (fun o => (o.returned, o.rows)) =
      some (true, [0xFF :: (glyphs.map (fun b => b ^^^ 0xFF) ++ List.replicate 25 0xFF)]) := by
  rw [createPngImage1BitDepth_reference fileName _ (by simp [hg])]
  simp [png_do_invert]

/-- C12 fails on the code for an image of more than one row, by the stride of C10: for the
width 8, the height 2 and the 16 bytes 0x00 .. 0x0F the call returns `true` and stores the
rows 0xFF and 0xF7. Row 0 is the complement of byte 0. Row 1 is the complement of the byte
at offset `1 * imgWidth = 8`, while the bytes of the second byte-padded row stand at offset
`1 * ceil(8 / 8) = 1` and their complement is 0xFE. The single row of the reference call is
stored as the claim has it. -/
theorem createPngImage1BitDepth_second_row_wrong_bytes :
    (2 * rowBytes 8 ≤
      [0x00, 0x01, 0x02, 0x03, 0x04, 0x05, 0x06, 0x07,
       0x08, 0x09, 0x0A, 0x0B, 0x0C, 0x0D, 0x0E, 0x0F].length) ∧
    (createPngImage1BitDepth quietEnv "0000.png".toList 8 2
        [0x00, 0x01, 0x02, 0x03, 0x04, 0x05, 0x06, 0x07,
         0x08, 0x09, 0x0A, 0x0B, 0x0C, 0x0D, 0x0E, 0x0F]).map
        (fun o => (o.returned, o.rows)) = some (true, [[0xFF], [0xF7]]) ∧
    png_do_invert
        (([0x00, 0x01, 0x02, 0x03, 0x04, 0x05, 0x06, 0x07,
           0x08, 0x09, 0x0A, 0x0B, 0x0C, 0x0D, 0x0E, 0x0F].drop (1 * 8)).take (rowBytes 8))
      = [0xF7] ∧
    png_do_invert
        (([0x00, 0x01, 0x02, 0x03, 0x04, 0x05, 0x06, 0x07,
           0x08, 0x09, 0x0A, 0x0B, 0x0C, 0x0D, 0x0E, 0x0F].drop (1 * rowBytes 8)).take
          (rowBytes 8))
      = [0xFE] ∧
    (createPngImage1BitDepth quietEnv "1337.png".toList 256 1
        (0 :: ("561337".toList.map glyphOf ++ List.replicate 25 0))).map (fun o => o.rows) =
      some [[0xFF, 0x2A, 0x0A, 0xBD, 0x29, 0x29, 0xB9] ++ List.replicate 25 0xFF] := by
  decide

/-- C13: for every `int` width and height, the header `createPngImage1BitDepth` writes has
exactly that width and that height, the bit depth 1, the grey colour type, no interlacing and
the default compression and filter, and a call that returns `true` has written a header; for
the reference call (width 256, height 1, a row of 32 bytes) the header has the width 256, the
height 1, the bit depth 1 and the grey colour type, which is what `readAndCheckPngFile`
asks of it. -/
theorem createPngImage1BitDepth_header (env : PngEnv) (fileName : List Char)
    (imgWidth imgHeight : Int) (data : List Nat) (out : PngOutcome)
    (hw : INT_MIN ≤ imgWidth ∧ imgWidth ≤ INT_MAX)
    (hh : INT_MIN ≤ imgHeight ∧ imgHeight ≤ INT_MAX)
    (hrun : createPngImage1BitDepth env fileName imgWidth imgHeight data = some out) :
    (out.returned = true → out.header.isSome = true) ∧
    (∀ hdr, out.header = some hdr →
      (hdr.width : Int) = imgWidth ∧ (hdr.height : Int) = imgHeight ∧ hdr.bit_depth = 1 ∧
      hdr.color_type = PNG_COLOR_TYPE_GRAY ∧ hdr.interlace_type = PNG_INTERLACE_NONE ∧
      hdr.compression_type = PNG_COMPRESSION_TYPE_DEFAULT ∧
      hdr.filter_type = PNG_FILTER_TYPE_DEFAULT) ∧
    (∀ row : List Nat, row.length = 32 →
      ∃ hdr, (createPngImage1BitDepth quietEnv fileName 256 1 row).map (fun o => o.header)
          = some (some hdr) ∧
        hdr.width = 256 ∧ hdr.height = 1 ∧ hdr.bit_depth = 1 ∧
        hdr.color_type = PNG_COLOR_TYPE_GRAY ∧ headerAccepted hdr = true) := by
  refine ⟨?_, ?_, ?_⟩
  · intro hret
    rcases createPngImage1BitDepth_inv env fileName imgWidth imgHeight data out hrun with
      h | ⟨h, -⟩
    · rw [h.2.2] at hret; exact Bool.noConfusion hret
    · rw [h]; rfl
  · intro hdr hhdr
    rcases createPngImage1BitDepth_inv env fileName imgWidth imgHeight data out hrun with
      h | ⟨h, hchk, -⟩
    · rw [h.1] at hhdr; exact Option.noConfusion hhdr
    · rw [h] at hhdr
      simp only [Option.some.injEq] at hhdr
      subst hhdr
      simp only [png_check_IHDR, Bool.and_eq_true, decide_eq_true_eq, PNG_UINT_31_MAX] at hchk
      obtain ⟨⟨⟨hw1, hw2⟩, hh1⟩, hh2⟩ := hchk
      unfold INT_MIN INT_MAX at hw hh
      unfold toUnsigned UINT_RANGE at hw1 hw2 hh1 hh2 ⊢
      refine ⟨?_, ?_, rfl, rfl, rfl, rfl, rfl⟩
      · simp only; omega
      · simp only; omega
  · intro row hrow
    rw [createPngImage1BitDepth_reference fileName row hrow]
    exact ⟨_, rfl, rfl, rfl, rfl, rfl, by decide⟩

/-- C13 on the reference call of `main` for the ID "1337". -/
theorem createPngImage1BitDepth_header_witness :
    ((INT_MIN ≤ 256 ∧ (256 : Int) ≤ INT_MAX) ∧ (INT_MIN ≤ 1 ∧ (1 : Int) ≤ INT_MAX) ∧
      createPngImage1BitDepth quietEnv "1337.png".toList 256 1
          (0 :: ("561337".toList.map glyphOf ++ List.replicate 25 0)) =
        some { returned := true, fileOpen := false,
               header := some { width := 256, height := 1, bit_depth := 1, color_type := 0,
                                interlace_type := 0, compression_type := 0, filter_type := 0 },
               rows := [[0xFF, 0x2A, 0x0A, 0xBD, 0x29, 0x29, 0xB9] ++ List.replicate 25 0xFF] }) ∧
    ∀ hdr : ImageHeader,
      some ({ width := 256, height := 1, bit_depth := 1, color_type := 0,
              interlace_type := 0, compression_type := 0, filter_type := 0 } : ImageHeader)
        = some hdr →
      (hdr.width : Int) = 256 ∧ (hdr.height : Int) = 1 ∧ hdr.bit_depth = 1 ∧
      hdr.color_type = PNG_COLOR_TYPE_GRAY ∧ hdr.interlace_type = PNG_INTERLACE_NONE ∧
      hdr.compression_type = PNG_COMPRESSION_TYPE_DEFAULT ∧
      hdr.filter_type = PNG_FILTER_TYPE_DEFAULT :=
  ⟨⟨by decide, by decide, by decide⟩,
    (createPngImage1BitDepth_header quietEnv "1337.png".toList 256 1
      (0 :: ("561337".toList.map glyphOf ++ List.replicate 25 0))
      { returned := true, fileOpen := false,
        header := some { width := 256, height := 1, bit_depth := 1, color_type := 0,
                         interlace_type := 0, compression_type := 0, filter_type := 0 },
        rows := [[0xFF, 0x2A, 0x0A, 0xBD, 0x29, 0x29, 0xB9] ++ List.replicate 25 0xFF] }
      (by decide) (by decide) (by decide)).2.1⟩

/-! ## The checksum of an ID and the loop of `main`, continued -/

theorem digitValue_injective (x y : Char) (hx : isdigit x = true) (hy : isdigit y = true)
    (h : digitValue x = digitValue y) : x = y := by
  rw [isdigit_iff] at hx hy
  have h0 : '0'.toNat = 48 := by decide
  simp only [digitValue, h0] at h
  have e : x.toNat = y.toNat := by omega
  rw [← Char.ofNat_toNat x, ← Char.ofNat_toNat y, e]

theorem decimalValue_reverse_four (a0 a1 a2 a3 : Char) :
    decimalValue [a0, a1, a2, a3].reverse =
      digitValue a0 + 10 * (digitValue a1 + 10 * (digitValue a2 + 10 * digitValue a3)) := by
  simp [decimalValue, Nat.ofDigits_cons]

theorem four_chars (a : List Char) (h : a.length = 4) : ∃ a0 a1 a2 a3, a = [a0, a1, a2, a3] := by
  match a, h with
  | [a0, a1, a2, a3], _ => exact ⟨a0, a1, a2, a3, rfl⟩

theorem mod97_digit (k A x y : Nat) (hk : k = 1 ∨ k = 10 ∨ k = 100 ∨ k = 1000)
    (hx : x < 10) (hy : y < 10) (h : (A + k * x) % 97 % 100 = (A + k * y) % 97 % 100) :
    x = y := by
  have hlt : ∀ n : Nat, n % 97 % 100 = n % 97 := fun n =>
    Nat.mod_eq_of_lt (Nat.lt_trans (Nat.mod_lt n (by norm_num)) (by norm_num))
  rw [hlt, hlt] at h
  have h1 : k * x ≡ k * y [MOD 97] := Nat.ModEq.add_left_cancel' A h
  have hco : Nat.gcd 97 k = 1 := by
    rcases hk with rfl | rfl | rfl | rfl <;> rfl
  have h2 : x ≡ y [MOD 97] := Nat.ModEq.cancel_left_of_coprime hco h1
  exact Nat.ModEq.eq_of_lt_of_lt h2 (by omega) (by omega)

/-- C14: two IDs that `isValidId` accepts for the length 4 and that differ at exactly one
index get different checksums from `getChecksumCode` with the modulus 97 and `outLen = 2`. -/
theorem checksum_single_digit_error (a b out : List Char)
    (ha : isValidId a 4 = true) (hb : isValidId b 4 = true)
    (i : Nat) (hi : i < 4) (hdiff : a[i]? ≠ b[i]?) (hsame : ∀ j, j ≠ i → a[j]? = b[j]?) :
    ∃ ca cb, getChecksumCode a out 97 2 = some (1, ca) ∧
      getChecksumCode b out 97 2 = some (1, cb) ∧ ca ≠ cb := by
  obtain ⟨ca, hca, -, -, hva⟩ := checksum_of_valid_id a out ha
  obtain ⟨cb, hcb, -, -, hvb⟩ := checksum_of_valid_id b out hb
  refine ⟨ca, cb, hca, hcb, ?_⟩
  intro hcab
  rw [hcab, hvb] at hva
  replace hva := hva.symm
  obtain ⟨hla, hda⟩ := (isValidId_spec a 4).1 ha
  obtain ⟨hlb, hdb⟩ := (isValidId_spec b 4).1 hb
  obtain ⟨a0, a1, a2, a3, rfl⟩ := four_chars a hla
  obtain ⟨b0, b1, b2, b3, rfl⟩ := four_chars b hlb
  rw [decimalValue_reverse_four, decimalValue_reverse_four] at hva
  have ha0 := digitValue_lt a0 (hda a0 (by simp))
  have ha1 := digitValue_lt a1 (hda a1 (by simp))
  have ha2 := digitValue_lt a2 (hda a2 (by simp))
  have ha3 := digitValue_lt a3 (hda a3 (by simp))
  have hb0 := digitValue_lt b0 (hdb b0 (by simp))
  have hb1 := digitValue_lt b1 (hdb b1 (by simp))
  have hb2 := digitValue_lt b2 (hdb b2 (by simp))
  have hb3 := digitValue_lt b3 (hdb b3 (by simp))
  have e0 := hsame 0
  have e1 := hsame 1
  have e2 := hsame 2
  have e3 := hsame 3
  simp only [List.getElem?_cons_zero, List.getElem?_cons_succ, Option.some.injEq] at e0 e1 e2 e3
  have inj0 := digitValue_injective a0 b0 (hda a0 (by simp)) (hdb b0 (by simp))
  have inj1 := digitValue_injective a1 b1 (hda a1 (by simp)) (hdb b1 (by simp))
  have inj2 := digitValue_injective a2 b2 (hda a2 (by simp)) (hdb b2 (by simp))
  have inj3 := digitValue_injective a3 b3 (hda a3 (by simp)) (hdb b3 (by simp))
  interval_cases i
  · rw [e1 (by decide), e2 (by decide), e3 (by decide)] at hva
    apply hdiff
    simp only [List.getElem?_cons_zero, Option.some.injEq]
    apply inj0
    apply mod97_digit 1 (10 * (digitValue b1 + 10 * (digitValue b2 + 10 * digitValue b3)))
      _ _ (by simp) ha0 hb0
    rw [Nat.add_comm _ (1 * digitValue a0), Nat.add_comm _ (1 * digitValue b0), Nat.one_mul,
      Nat.one_mul]
    exact hva
  · rw [e0 (by decide), e2 (by decide), e3 (by decide)] at hva
    apply hdiff
    simp only [List.getElem?_cons_zero, List.getElem?_cons_succ, Option.some.injEq]
    apply inj1
    apply mod97_digit 10 (digitValue b0 + 100 * (digitValue b2 + 10 * digitValue b3))
      _ _ (by simp) ha1 hb1
    have ea : digitValue b0 + 10 * (digitValue a1 + 10 * (digitValue b2 + 10 * digitValue b3))
        = digitValue b0 + 100 * (digitValue b2 + 10 * digitValue b3) + 10 * digitValue a1 := by
      ring
    have eb : digitValue b0 + 10 * (digitValue b1 + 10 * (digitValue b2 + 10 * digitValue b3))
        = digitValue b0 + 100 * (digitValue b2 + 10 * digitValue b3) + 10 * digitValue b1 := by
      ring
    rw [← ea, ← eb]
    exact hva
  · rw [e0 (by decide), e1 (by decide), e3 (by decide)] at hva
    apply hdiff
    simp only [List.getElem?_cons_zero, List.getElem?_cons_succ, Option.some.injEq]
    apply inj2
    apply mod97_digit 100 (digitValue b0 + 10 * digitValue b1 + 1000 * digitValue b3)
      _ _ (by simp) ha2 hb2
    have ea : digitValue b0 + 10 * (digitValue b1 + 10 * (digitValue a2 + 10 * digitValue b3))
        = digitValue b0 + 10 * digitValue b1 + 1000 * digitValue b3 + 100 * digitValue a2 := by
      ring
    have eb : digitValue b0 + 10 * (digitValue b1 + 10 * (digitValue b2 + 10 * digitValue b3))
        = digitValue b0 + 10 * digitValue b1 + 1000 * digitValue b3 + 100 * digitValue b2 := by
      ring
    rw [← ea, ← eb]
    exact hva
  · rw [e0 (by decide), e1 (by decide), e2 (by decide)] at hva
    apply hdiff
    simp only [List.getElem?_cons_zero, List.getElem?_cons_succ, Option.some.injEq]
    apply inj3
    apply mod97_digit 1000 (digitValue b0 + 10 * digitValue b1 + 100 * digitValue b2)
      _ _ (by simp) ha3 hb3
    have ea : digitValue b0 + 10 * (digitValue b1 + 10 * (digitValue b2 + 10 * digitValue a3))
        = digitValue b0 + 10 * digitValue b1 + 100 * digitValue b2 + 1000 * digitValue a3 := by
      ring
    have eb : digitValue b0 + 10 * (digitValue b1 + 10 * (digitValue b2 + 10 * digitValue b3))
        = digitValue b0 + 10 * digitValue b1 + 100 * digitValue b2 + 1000 * digitValue b3 := by
      ring
    rw [← ea, ← eb]
    exact hva

/-- C14 on the IDs "1337" and "1347", which differ at the index 2: the checksums are "56"
and "59". -/
theorem checksum_single_digit_error_witness :
    (isValidId "1337".toList 4 = true ∧ isValidId "1347".toList 4 = true ∧ 2 < 4 ∧
      "1337".toList[2]? ≠ "1347".toList[2]? ∧
      (∀ j, j ≠ 2 → "1337".toList[j]? = "1347".toList[j]?)) ∧
    (∃ ca cb, getChecksumCode "1337".toList [] 97 2 = some (1, ca) ∧
      getChecksumCode "1347".toList [] 97 2 = some (1, cb) ∧ ca ≠ cb) ∧
    getChecksumCode "1337".toList [] 97 2 = some (1, "56".toList) ∧
    getChecksumCode "1347".toList [] 97 2 = some (1, "59".toList) := by
  have hs : ∀ j, j ≠ 2 → "1337".toList[j]? = "1347".toList[j]? := by
    intro j hj
    match j, hj with
    | 0, _ => rfl
    | 1, _ => rfl
    | 2, h => exact absurd rfl h
    | 3, _ => rfl
    | (n + 4), _ => rfl
  exact ⟨⟨by decide, by decide, by decide, by decide, hs⟩,
    checksum_single_digit_error "1337".toList "1347".toList [] (by decide) (by decide) 2
      (by decide) (by decide) hs,
    by decide, by decide⟩

/-- C15: for an ID that `isValidId` accepts for the length 4, `getChecksumCode` with 97 and 2
returns 1 with exactly two decimal digits, and `convertStringToDecDisplay` on the checksum
followed by the ID returns 1 with exactly 6 bytes; so, after any lines read before, the
iteration of the loop of `main` on such an ID that was not read before reaches the call of
the image writer. -/
theorem valid_id_never_fails (id out : List Char) (display : List Nat)
    (hvalid : isValidId id 4 = true) :
    ∃ c d, getChecksumCode id out 97 2 = some (1, c) ∧ c.length = 2 ∧
      (∀ x ∈ c, isdigit x = true) ∧
      convertStringToDecDisplay (c ++ id) display = (1, d) ∧ d.length = 6 ∧
      ∀ prev : List (List Char), id ∉ prev →
        ∃ st calls st1 call, mainLoop prev initialState = some (st, calls) ∧
          loopBody st id = some (st1, some call) := by
  obtain ⟨c, hc, hcl, hcd, -⟩ := checksum_of_valid_id id out hvalid
  obtain ⟨hlen, hd⟩ := (isValidId_spec id 4).1 hvalid
  have hall : ∀ x ∈ c ++ id, isdigit x = true := by
    intro x hx
    rcases List.mem_append.1 hx with h | h
    · exact hcd x h
    · exact hd x h
  refine ⟨c, (c ++ id).map glyphOf, hc, hcl, hcd, ?_, ?_, ?_⟩
  · unfold convertStringToDecDisplay
    rw [convertLoop_digits (c ++ id) [] hall]
    simp
  · simp [hcl, hlen]
  · intro prev hnew
    obtain ⟨st, calls, hloop, hsize, hset⟩ := mainLoop_invariant prev initialState rfl
    have hnot : id ∉ st.idSet := by
      rw [hset]; simp [initialState, hnew]
    obtain ⟨c1, hc1, hcl1, hcd1, -⟩ := checksum_of_valid_id id st.checkSumStr hvalid
    obtain ⟨st1, hbody, -, -⟩ := loopBody_valid st id c1 hsize hvalid hnot hc1 hcl1 hcd1
    exact ⟨st, calls, st1, _, hloop, hbody⟩

/-- C15 on the ID "1337". -/
theorem valid_id_never_fails_witness :
    isValidId "1337".toList 4 = true ∧
    ∃ c d, getChecksumCode "1337".toList [] 97 2 = some (1, c) ∧ c.length = 2 ∧
      (∀ x ∈ c, isdigit x = true) ∧
      convertStringToDecDisplay (c ++ "1337".toList) [] = (1, d) ∧ d.length = 6 ∧
      ∀ prev : List (List Char), "1337".toList ∉ prev →
        ∃ st calls st1 call, mainLoop prev initialState = some (st, calls) ∧
          loopBody st "1337".toList = some (st1, some call) :=
  ⟨by decide, valid_id_never_fails "1337".toList [] [] (by decide)⟩

/-! ## The glyph table, continued -/

theorem convertLoop_mem (s : List Char) : ∀ (acc : List Nat) (b : Nat),
    b ∈ (convertLoop s acc).2 → b ∈ acc ∨ ∃ p ∈ C_Map_DecToDisplay, p.2 = b := by
  induction s with
  | nil => intro acc b h; exact Or.inl (by simpa [convertLoop] using h)
  | cons c rest ih =>
    intro acc b h
    rw [convertLoop] at h
    cases hl : C_Map_DecToDisplay.lookup c with
    | none => rw [hl] at h; exact Or.inl (by simpa using h)
    | some pattern =>
      rw [hl] at h
      rcases ih _ b h with h1 | h1
      · rcases List.mem_append.1 h1 with h2 | h2
        · exact Or.inl h2
        · right
          have hb : b = pattern := by simpa using h2
          subst hb
          cases hd : isdigit c with
          | false => rw [lookup_of_not_isdigit c hd] at hl; exact Option.noConfusion hl
          | true =>
            have hc := char_of_isdigit c hd
            simp only [List.mem_cons, List.mem_singleton, List.not_mem_nil, or_false] at hc
            rcases hc with e | e | e | e | e | e | e | e | e | e <;> subst e <;>
              (have hv : some b = _ := hl.symm
               simp only [C_Map_DecToDisplay, List.lookup] at hv
               injection hv with hv
               subst hv
               decide)
      · exact Or.inr h1

/-- C16: the bitwise OR of the ten glyph patterns is 0xF7; every byte
`convertStringToDecDisplay` produces, on a digit string as on any other string, has bit 3
(mask 0x08) clear; and each of the bit positions 0, 1, 2, 4, 5, 6, 7 is set in the pattern of
at least one digit. -/
theorem glyph_bit_three_unused :
    (C_Map_DecToDisplay.map Prod.snd).foldl (fun x y => x ||| y) 0 = 0xF7 ∧
    (∀ (s : List Char) (out : List Nat), ∀ b ∈ (convertStringToDecDisplay s out).2,
      b &&& 0x08 = 0 ∧ b.testBit 3 = false) ∧
    (∀ i ∈ [0, 1, 2, 4, 5, 6, 7], ∃ p ∈ C_Map_DecToDisplay, p.2.testBit i = true) := by
  refine ⟨by decide, ?_, by decide⟩
  intro s out b hb
  unfold convertStringToDecDisplay at hb
  rcases convertLoop_mem s [] b hb with h | ⟨p, hp, rfl⟩
  · simp at h
  · have key : ∀ q ∈ C_Map_DecToDisplay, q.2 &&& 0x08 = 0 ∧ q.2.testBit 3 = false := by
      decide
    exact key p hp

/-- The bytes `convertStringToDecDisplay` leaves in its output, whatever it returns: the
patterns of the longest run of digits at the start of the input. -/
theorem convertLoop_snd (s : List Char) : ∀ acc : List Nat,
    (convertLoop s acc).2 = acc ++ (s.takeWhile isdigit).map glyphOf := by
  induction s with
  | nil => intro acc; simp [convertLoop]
  | cons c rest ih =>
    intro acc
    rw [convertLoop]
    cases hc : isdigit c with
    | true =>
      rw [lookup_of_isdigit c hc]
      simp only
      rw [ih, List.takeWhile_cons, hc]
      simp
    | false =>
      rw [lookup_of_not_isdigit c hc, List.takeWhile_cons, hc]
      simp

/-- C18: when `convertStringToDecDisplay` returns 0 its output holds exactly the patterns of
the characters before the first one outside `'0' .. '9'`, so it is empty only when the
first character is such a one; what the output held before the call does not show. -/
theorem convertStringToDecDisplay_partial_output (s : List Char) (out : List Nat)
    (h : (convertStringToDecDisplay s out).1 = 0) :
    (convertStringToDecDisplay s out).2 = (s.takeWhile isdigit).map glyphOf ∧
    ((convertStringToDecDisplay s out).2 = [] ↔ ∃ c rest, s = c :: rest ∧ isdigit c = false) ∧
    (∀ other : List Nat, convertStringToDecDisplay s other = convertStringToDecDisplay s out) := by
  have hsnd : (convertStringToDecDisplay s out).2 = (s.takeWhile isdigit).map glyphOf := by
    unfold convertStringToDecDisplay
    rw [convertLoop_snd]; simp
  refine ⟨hsnd, ?_, fun _ => rfl⟩
  rw [hsnd]
  obtain ⟨c, hc, hcd⟩ : ∃ c ∈ s, isdigit c = false := by
    unfold convertStringToDecDisplay at h
    exact (convertLoop_fst s []).1.1 h
  cases s with
  | nil => simp at hc
  | cons x rest =>
    cases hx : isdigit x with
    | true => simp [List.takeWhile_cons, hx]
    | false => simp [List.takeWhile_cons, hx]

/-- C18 on the input "13A37": the output that held two bytes holds the patterns of "13". -/
theorem convertStringToDecDisplay_partial_output_witness :
    (convertStringToDecDisplay "13A37".toList [1, 2]).1 = 0 ∧
    ((convertStringToDecDisplay "13A37".toList [1, 2]).2
        = ("13A37".toList.takeWhile isdigit).map glyphOf ∧
      ((convertStringToDecDisplay "13A37".toList [1, 2]).2 = [] ↔
        ∃ c rest, "13A37".toList = c :: rest ∧ isdigit c = false) ∧
      (∀ other : List Nat, convertStringToDecDisplay "13A37".toList other
        = convertStringToDecDisplay "13A37".toList [1, 2])) ∧
    convertStringToDecDisplay "13A37".toList [1, 2] = (0, [0x42, 0xD6]) ∧
    convertStringToDecDisplay "AB1337".toList [1, 2] = (0, []) :=
  ⟨by decide, convertStringToDecDisplay_partial_output "13A37".toList [1, 2] (by decide),
    by decide, by decide⟩

theorem glyphOf_injective (x y : Char) (hx : isdigit x = true) (hy : isdigit y = true)
    (h : glyphOf x = glyphOf y) : x = y := by
  have hcx := char_of_isdigit x hx
  have hcy := char_of_isdigit y hy
  simp only [List.mem_cons, List.mem_singleton, List.not_mem_nil, or_false] at hcx hcy
  rcases hcx with e | e | e | e | e | e | e | e | e | e <;> subst e <;>
    rcases hcy with e | e | e | e | e | e | e | e | e | e <;> subst e <;>
    first
    | rfl
    | (exfalso; revert h; decide)

theorem map_glyphOf_injective (s : List Char) : ∀ t : List Char,
    (∀ c ∈ s, isdigit c = true) → (∀ c ∈ t, isdigit c = true) →
    s.map glyphOf = t.map glyphOf → s = t := by
  induction s with
  | nil =>
    intro t _ _ h
    cases t with
    | nil => rfl
    | cons y t => simp at h
  | cons x s ih =>
    intro t hs ht h
    cases t with
    | nil => simp at h
    | cons y t =>
      simp only [List.map_cons, List.cons.injEq] at h
      have hxy := glyphOf_injective x y (hs x (by simp)) (ht y (by simp)) h.1
      have := ih t (fun c hc => hs c (List.mem_cons_of_mem _ hc))
        (fun c hc => ht c (List.mem_cons_of_mem _ hc)) h.2
      rw [hxy, this]

/-- C19: the ten patterns of the table are pairwise distinct, and two strings over
`'0' .. '9'` on which `convertStringToDecDisplay` leaves the same output are equal. -/
theorem convertStringToDecDisplay_injective (s t : List Char) (out1 out2 : List Nat)
    (hs : ∀ c ∈ s, isdigit c = true) (ht : ∀ c ∈ t, isdigit c = true)
    (h : (convertStringToDecDisplay s out1).2 = (convertStringToDecDisplay t out2).2) :
    s = t ∧ (C_Map_DecToDisplay.map Prod.snd).Nodup := by
  refine ⟨?_, by decide⟩
  unfold convertStringToDecDisplay at h
  rw [convertLoop_digits s [] hs, convertLoop_digits t [] ht] at h
  exact map_glyphOf_injective s t hs ht (by simpa using h)

/-- C19 on the strings "561337" and "561337". -/
theorem convertStringToDecDisplay_injective_witness :
    ((∀ c ∈ "561337".toList, isdigit c = true) ∧
      (convertStringToDecDisplay "561337".toList [1]).2
        = (convertStringToDecDisplay "561337".toList [2]).2) ∧
    ("561337".toList = "561337".toList ∧ (C_Map_DecToDisplay.map Prod.snd).Nodup) ∧
    (convertStringToDecDisplay "561337".toList [1]).2
      ≠ (convertStringToDecDisplay "561377".toList [1]).2 :=
  ⟨⟨by decide, by decide⟩,
    convertStringToDecDisplay_injective "561337".toList "561337".toList [1] [2] (by decide)
      (by decide) (by decide),
    by decide⟩

/-! ## The checksum, continued -/

theorem decimalValue_reverse_append_zeros (s : List Char) (k : Nat) :
    decimalValue (s ++ List.replicate k '0').reverse = decimalValue s.reverse := by
  unfold decimalValue
  have h0 : digitValue '0' = 0 := by decide
  simp only [List.reverse_reverse, List.map_append, List.map_replicate, h0,
    Nat.ofDigits_append, ofDigits_replicate_zero, Nat.mul_zero, Nat.add_zero]

theorem decimalValue_reverse_zeros_one (n : Nat) :
    decimalValue (List.replicate n '0' ++ ['1']).reverse = 10 ^ n := by
  unfold decimalValue
  have h0 : digitValue '0' = 0 := by decide
  have h1 : digitValue '1' = 1 := by decide
  simp [Nat.ofDigits_append, ofDigits_replicate_zero, h0, h1]

/-- C17: for `outLen ≤ 9` (so for `1 ≤ outLen ≤ 9`) and a modulus above `10^outLen` there are two digit strings on
which `getChecksumCode` returns 1 with the same checksum although the values of their
reversals have different remainders modulo the modulus: "0", and `outLen` characters `'0'`
followed by `'1'`, whose reversal denotes `10^outLen`. -/
theorem getChecksumCode_truncation_collision (out : List Char) (modulus outLen : Nat)
    (h9 : outLen ≤ 9) (hmod : 10 ^ outLen < modulus) :
    ∃ s t c, (∀ x ∈ s, isdigit x = true) ∧ (∀ x ∈ t, isdigit x = true) ∧
      getChecksumCode s out modulus outLen = some (1, c) ∧
      getChecksumCode t out modulus outLen = some (1, c) ∧
      decimalValue s.reverse % modulus ≠ decimalValue t.reverse % modulus := by
  have hpos : 0 < 10 ^ outLen := by positivity
  have hpow : 10 ^ outLen ≤ 10 ^ 9 := Nat.pow_le_pow_right (by norm_num) h9
  have h9v : (10 : Nat) ^ 9 = 1000000000 := by norm_num
  have hs : ∀ x ∈ ['0'], isdigit x = true := by decide
  have ht : ∀ x ∈ List.replicate outLen '0' ++ ['1'], isdigit x = true := by
    intro x hx
    rcases List.mem_append.1 hx with h | h
    · rw [List.eq_of_mem_replicate h]; decide
    · rw [List.mem_singleton.1 h]; decide
  have hvs : decimalValue ['0'].reverse = 0 := by decide
  have hvt := decimalValue_reverse_zeros_one outLen
  refine ⟨['0'], List.replicate outLen '0' ++ ['1'], _, hs, ht,
    getChecksumCode_of_value ['0'] out modulus outLen (by simp) hs (by rw [hvs]; omega)
      (by omega) h9, ?_, ?_⟩
  · rw [getChecksumCode_of_value _ out modulus outLen (by simp) ht (by rw [hvt]; omega)
      (by omega) h9, hvs, hvt, Nat.mod_eq_of_lt hmod, Nat.mod_self, Nat.zero_mod, Nat.zero_mod]
  · rw [hvs, hvt, Nat.mod_eq_of_lt hmod, Nat.zero_mod]
    omega

/-- C17 on the modulus 101 and `outLen = 2`: "0" and "001" both get the checksum "00", and
their reversals denote 0 and 100. -/
theorem getChecksumCode_truncation_collision_witness :
    (1 ≤ 2 ∧ 2 ≤ 9 ∧ 10 ^ 2 < 101) ∧
    (∃ s t c, (∀ x ∈ s, isdigit x = true) ∧ (∀ x ∈ t, isdigit x = true) ∧
      getChecksumCode s [] 101 2 = some (1, c) ∧
      getChecksumCode t [] 101 2 = some (1, c) ∧
      decimalValue s.reverse % 101 ≠ decimalValue t.reverse % 101) ∧
    getChecksumCode "0".toList [] 101 2 = some (1, "00".toList) ∧
    getChecksumCode "001".toList [] 101 2 = some (1, "00".toList) :=
  ⟨⟨by decide, by decide, by decide⟩,
    getChecksumCode_truncation_collision [] 101 2 (by decide) (by decide),
    by decide, by decide⟩

/-- C20: for a non-empty digit string whose reversal denotes a number of at most 2147483647,
any number `k` of characters `'0'` put after it, a modulus of at least 1 and
`1 ≤ outLen ≤ 9`, `getChecksumCode` returns 1 on the longer string and leaves the checksum it
leaves on the string itself. -/
theorem getChecksumCode_trailing_zeros (s out : List Char) (k modulus outLen : Nat)
    (hne : s ≠ []) (hd : ∀ c ∈ s, isdigit c = true)
    (hval : decimalValue s.reverse ≤ 2147483647)
    (hmod : 1 ≤ modulus) (h1 : 1 ≤ outLen) (h9 : outLen ≤ 9) :
    ∃ c, getChecksumCode s out modulus outLen = some (1, c) ∧
      getChecksumCode (s ++ List.replicate k '0') out modulus outLen = some (1, c) ∧
      c.length = outLen := by
  have hd2 : ∀ c ∈ s ++ List.replicate k '0', isdigit c = true := by
    intro c hc
    rcases List.mem_append.1 hc with h | h
    · exact hd c h
    · rw [List.eq_of_mem_replicate h]; decide
  have hne2 : s ++ List.replicate k '0' ≠ [] := by simp [hne]
  have hv := decimalValue_reverse_append_zeros s k
  refine ⟨_, getChecksumCode_of_value s out modulus outLen hne hd hval hmod h9, ?_, ?_⟩
  · rw [getChecksumCode_of_value _ out modulus outLen hne2 hd2 (by rw [hv]; exact hval) hmod h9,
      hv]
  · exact padded_length _ outLen h1 (Nat.mod_lt _ (by positivity))

/-- C20 on the input "1" and on "1" followed by four `'0'`, the "10000" of the unit test:
both get "01" with the modulus 97 and `outLen = 2`. -/
theorem getChecksumCode_trailing_zeros_witness :
    ("1".toList ≠ [] ∧ (∀ c ∈ "1".toList, isdigit c = true) ∧
      decimalValue "1".toList.reverse ≤ 2147483647 ∧ 1 ≤ 97 ∧ 1 ≤ 2 ∧ 2 ≤ 9) ∧
    (∃ c, getChecksumCode "1".toList [] 97 2 = some (1, c) ∧
      getChecksumCode ("1".toList ++ List.replicate 4 '0') [] 97 2 = some (1, c) ∧
      c.length = 2) ∧
    getChecksumCode "1".toList [] 97 2 = some (1, "01".toList) ∧
    getChecksumCode "10000".toList [] 97 2 = some (1, "01".toList) := by
  have hv : decimalValue "1".toList.reverse ≤ 2147483647 := by
    rw [← accumulateDigits_eq]; decide
  exact ⟨⟨by decide, by decide, hv, by decide, by decide, by decide⟩,
    getChecksumCode_trailing_zeros "1".toList [] 4 97 2 (by decide) (by decide) hv (by decide)
      (by decide) (by decide),
    by decide, by decide⟩

end LcdPng
